import Mathlib

/-!
A shallow embedding of `tetris.js`.

The game engine of `src/tetris.js` (class `Game`) is translated method by method into
pure functions over an explicit state record.

* JavaScript values that the engine stores in the grid or in a shape matrix are modelled
  by `Val` (`undefined`, an integer number, a string); `truthy` is JavaScript truthiness.
* Numbers are mathematical integers (`Int`): the engine only adds, subtracts and compares
  integers, which is exact on JavaScript doubles below `2^53`. Times are integer
  milliseconds.
* A method that can throw a `TypeError` (reading or writing a property of `undefined`)
  returns `none` there; a loop that may fail to terminate takes a `fuel` argument and
  returns `none` when the fuel runs out.
* `Math.random()` is an input: the shape index drawn by `newPiece` is a parameter.
* Canvas drawing, DOM text updates, `alert` and `requestAnimationFrame` do not touch the
  game state and are left out.
-/

namespace Tetris

/-! ## Values -/

/-- The JavaScript values that occur in the grid and in shape matrices. -/
inductive Val where
  | undef : Val
  | num (n : Int) : Val
  | str (s : String) : Val
  deriving DecidableEq

/-- JavaScript truthiness: `undefined`, `0` and the empty string are falsy. -/
def truthy : Val → Bool
  | .undef => false
  | .num n => decide (n ≠ 0)
  | .str s => decide (s ≠ "")

/-- Array read `arr[k]` for an integer `k`: `undefined` outside `0 .. length-1`. -/
def jsGet (arr : List Val) (k : Int) : Val :=
  if k < 0 then Val.undef else arr.getD k.toNat Val.undef

/-- Array write `arr[k] = v` for an integer `k`. Inside the array the element is replaced;
at or past the end the array grows, the gap reading `undefined`; a negative `k` sets a
non-index property, which leaves the elements as they are (no code of the engine reads
such a property). -/
def jsSet (arr : List Val) (k : Int) (v : Val) : List Val :=
  if k < 0 then arr
  else if k.toNat < arr.length then arr.set k.toNat v
  else arr ++ List.replicate (k.toNat - arr.length) Val.undef ++ [v]

/-! ## Constants -/

def GRID_WIDTH : Int := 10

def GRID_HEIGHT : Int := 20

abbrev Shape := List (List Val)

abbrev Grid := List (List Val)

def SHAPES : List Shape :=
  [ [[.num 1, .num 1, .num 1, .num 1]],
    [[.num 1, .num 1], [.num 1, .num 1]],
    [[.num 1, .num 1, .num 1], [.num 0, .num 1, .num 0]],
    [[.num 1, .num 1, .num 1], [.num 1, .num 0, .num 0]],
    [[.num 1, .num 1, .num 1], [.num 0, .num 0, .num 1]],
    [[.num 1, .num 1, .num 0], [.num 0, .num 1, .num 1]],
    [[.num 0, .num 1, .num 1], [.num 1, .num 1, .num 0]] ]

def COLORS : List Val :=
  [ .str "#00ffff", .str "#ffff00", .str "#ff00ff", .str "#ffa500",
    .str "#0000ff", .str "#00ff00", .str "#ff0000" ]

/-! ## State -/

structure Piece where
  shape : Shape
  color : Val
  x : Int
  y : Int
  deriving DecidableEq

/-- The fields of a `Game` object that the engine reads or writes. -/
structure Game where
  grid : Grid
  score : Int
  lines : Int
  level : Int
  gameOver : Bool
  isPaused : Bool
  currentPiece : Piece
  nextPiece : Piece
  dropCounter : Int
  dropInterval : Int
  lastTime : Int
  deriving DecidableEq

/-- `newPiece()`; `shapeIndex` is the value of `Math.floor(Math.random() * SHAPES.length)`,
an integer in `0 .. 6`. -/
def newPiece (shapeIndex : Fin 7) : Piece :=
  { shape := SHAPES.getD shapeIndex.val []
    color := COLORS.getD shapeIndex.val Val.undef
    x := GRID_WIDTH / 2 - 1
    y := 0 }

/-! ## Iteration helpers -/

/-- `Array.prototype.some` with the element index passed to the callback: stops at the
first element whose callback result is truthy; a callback that throws (`none`) aborts. -/
def someIdx {α : Type} (f : α → Nat → Option Bool) : List α → Nat → Option Bool
  | [], _ => some false
  | a :: rest, i =>
    match f a i with
    | none => none
    | some true => some true
    | some false => someIdx f rest (i + 1)

/-- `Array.prototype.forEach` with the element index passed to the callback, threading
the state the callback writes to; a callback that throws (`none`) aborts. -/
def forEachIdx {α σ : Type} (f : σ → α → Nat → Option σ) : List α → Nat → σ → Option σ
  | [], _, st => some st
  | a :: rest, i, st =>
    match f st a i with
    | none => none
    | some st1 => forEachIdx f rest (i + 1) st1

/-! ## collision -/

/-- The inner callback of `collision()` for the shape entry `value` at column `x` of
shape row `y`. The grid is read only when `0 <= newX < 10` and `0 <= newY < 20`; the read
`this.grid[newY][newX]` throws when the grid has no row `newY`. -/
def collisionCell (s : Game) (value : Val) (x y : Nat) : Option Bool :=
  if !truthy value then some false
  else
    let newX := s.currentPiece.x + x
    let newY := s.currentPiece.y + y
    if newX < 0 ∨ newX ≥ GRID_WIDTH ∨ newY ≥ GRID_HEIGHT then some true
    else if newY ≥ 0 then
      match s.grid[newY.toNat]? with
      | none => none
      | some row => some (truthy (jsGet row newX))
    else some false

/-- `collision()`. -/
def collision (s : Game) : Option Bool :=
  someIdx (fun row y => someIdx (fun value x => collisionCell s value x y) row 0)
    s.currentPiece.shape 0

/-! ## move and rotate -/

/-- `move(dir)`. -/
def move (dir : Int) (s : Game) : Option Game :=
  let s1 := { s with currentPiece := { s.currentPiece with x := s.currentPiece.x + dir } }
  match collision s1 with
  | none => none
  | some true =>
    some { s1 with currentPiece := { s1.currentPiece with x := s1.currentPiece.x - dir } }
  | some false => some s1

/-- The candidate shape `rotated` of `rotate()`:
`shape[0].map((_, i) => shape.map(row => row[row.length - 1 - i]))`;
reading `shape[0]` of an empty shape throws. -/
def rotatedShape (shape : Shape) : Option Shape :=
  match shape with
  | [] => none
  | row0 :: _ =>
    some ((List.range row0.length).map fun (i : Nat) =>
      shape.map fun row => jsGet row ((row.length : Int) - 1 - (i : Int)))

/-- `rotate()`. -/
def rotate (s : Game) : Option Game :=
  let original := s.currentPiece.shape
  match rotatedShape s.currentPiece.shape with
  | none => none
  | some rotated =>
    let s1 := { s with currentPiece := { s.currentPiece with shape := rotated } }
    match collision s1 with
    | none => none
    | some true => some { s1 with currentPiece := { s1.currentPiece with shape := original } }
    | some false => some s1

/-! ## merge -/

/-- The assignment `this.grid[Y][X] = v`: throws when the grid has no row `Y`. -/
def gridSet (grid : Grid) (Y X : Int) (v : Val) : Option Grid :=
  if Y < 0 then none
  else
    match grid[Y.toNat]? with
    | none => none
    | some row => some (grid.set Y.toNat (jsSet row X v))

/-- The inner callback of `merge()`. -/
def mergeCell (p : Piece) (y : Nat) (grid : Grid) (value : Val) (x : Nat) : Option Grid :=
  if truthy value then gridSet grid (p.y + y) (p.x + x) p.color else some grid

/-- The two nested `forEach` loops of `merge()` acting on the grid. -/
def mergeGrid (p : Piece) (grid : Grid) : Option Grid :=
  forEachIdx (fun g row y => forEachIdx (mergeCell p y) row 0 g) p.shape 0 grid

/-- `merge()`. -/
def merge (s : Game) : Option Game :=
  match mergeGrid s.currentPiece s.grid with
  | none => none
  | some g => some { s with grid := g }

/-! ## clearLines -/

/-- The inner `for` loop of `clearLines()`: the row is full when no cell is falsy. -/
def rowFull (row : List Val) : Bool :=
  row.all truthy

/-- The value of `row.fill(0)`. -/
def fillZero (row : List Val) : List Val :=
  row.map fun _ => Val.num 0

/-- The labelled `outer` loop of `clearLines()`, entered with loop variable `y` and
counter `linesCleared`. One unit of fuel is spent per pass through the loop test.
A full row is spliced out and its zero-filled copy unshifted, and `y++` followed by the
loop's `y--` leaves `y` as it is; otherwise `continue outer` runs `y--`. -/
def clearLoop : Nat → Grid → Int → Nat → Option (Grid × Nat)
  | 0, _, _, _ => none
  | fuel + 1, grid, y, linesCleared =>
    if y < 0 then some (grid, linesCleared)
    else
      match grid[y.toNat]? with
      | none => none
      | some row =>
        if rowFull row then
          clearLoop fuel (fillZero row :: grid.eraseIdx y.toNat) y (linesCleared + 1)
        else clearLoop fuel grid (y - 1) linesCleared

/-- `clearLines()`. The sums and products are those of integers; the code forms them on
doubles, which gives the same values as long as they stay within `2^53` in absolute value
(`ExactRange` below is a sufficient condition on the state). -/
def clearLines (fuel : Nat) (s : Game) : Option Game :=
  match clearLoop fuel s.grid ((s.grid.length : Int) - 1) 0 with
  | none => none
  | some (grid, linesCleared) =>
    if linesCleared > 0 then
      let score := s.score + (linesCleared : Int) * 100 * s.level
      let lines := s.lines + (linesCleared : Int)
      let level := lines / 10 + 1
      some { s with
        grid := grid
        score := score
        lines := lines
        level := level
        dropInterval := max (1000 - (level - 1) * 100) 100 }
    else some { s with grid := grid }

/-! ## drop, update and the key handler -/

/-- `drop()`; `rnd` is the shape index drawn if a new piece is generated. -/
def drop (fuel : Nat) (rnd : Fin 7) (s : Game) : Option Game :=
  let s1 := { s with currentPiece := { s.currentPiece with y := s.currentPiece.y + 1 } }
  match collision s1 with
  | none => none
  | some true =>
    let s2 := { s1 with currentPiece := { s1.currentPiece with y := s1.currentPiece.y - 1 } }
    match merge s2 with
    | none => none
    | some s3 =>
      match clearLines fuel s3 with
      | none => none
      | some s4 =>
        if s4.currentPiece.y = 0 then some { s4 with gameOver := true }
        else
          some { s4 with
            currentPiece := s4.nextPiece
            nextPiece := newPiece rnd
            dropCounter := 0 }
  | some false => some { s1 with dropCounter := 0 }

/-- One call of `update(time)`. -/
def update (fuel : Nat) (rnd : Fin 7) (time : Int) (s : Game) : Option Game :=
  if s.gameOver || s.isPaused then some s
  else
    let deltaTime := time - s.lastTime
    let s1 := { s with lastTime := time, dropCounter := s.dropCounter + deltaTime }
    if s1.dropCounter > s1.dropInterval then drop fuel rnd s1 else some s1

/-- The `keydown` listener installed by `bindEvents()`, run on `event.keyCode`. -/
def keydown (fuel : Nat) (rnd : Fin 7) (keyCode : Nat) (s : Game) : Option Game :=
  if s.gameOver then some s
  else
    match keyCode with
    | 37 => move (-1) s
    | 39 => move 1 s
    | 40 => drop fuel rnd s
    | 38 => rotate s
    | 32 =>
      let s1 := { s with isPaused := !s.isPaused }
      if !s1.isPaused then update fuel rnd 0 s1 else some s1
    | _ => some s

/-! ## Vocabulary of the statements -/

/-- The grid has `GRID_HEIGHT = 20` rows of `GRID_WIDTH = 10` cells. -/
def WF (g : Grid) : Prop := g.length = 20 ∧ ∀ row ∈ g, row.length = 10

instance (g : Grid) : Decidable (WF g) := by
  unfold WF; infer_instance

/-- The entry at row `R`, column `C` of a matrix; `undefined` outside the matrix. -/
def cell (g : Grid) (R C : Nat) : Val := (g.getD R []).getD C Val.undef

/-- The shape has a truthy entry at row `r`, column `c`. -/
def occupied (shape : Shape) (r c : Nat) : Prop := truthy (cell shape r c) = true

instance (shape : Shape) (r c : Nat) : Decidable (occupied shape r c) := by
  unfold occupied; infer_instance

/-- The condition under which one shape cell, mapped to board column `X` and row `Y`,
makes `collision()` answer true. -/
def hits (g : Grid) (X Y : Int) : Prop :=
  X < 0 ∨ X ≥ 10 ∨ Y ≥ 20 ∨
    (0 ≤ Y ∧ Y < 20 ∧ 0 ≤ X ∧ X < 10 ∧ truthy (cell g Y.toNat X.toNat) = true)

/-- A matrix of `h` rows that all have `w` entries. -/
def Rect (M : List (List Val)) (h w : Nat) : Prop := M.length = h ∧ ∀ row ∈ M, row.length = w

instance (M : List (List Val)) (h w : Nat) : Decidable (Rect M h w) := by
  unfold Rect; infer_instance

/-- The grid built by the constructor: `GRID_HEIGHT` rows of `GRID_WIDTH` zeros. -/
def emptyGrid : Grid := List.replicate 20 (List.replicate 10 (Val.num 0))

/-- The state the constructor sets up before its first `update()` call; `i` and `j` are
the shape indices drawn for the current and the next piece. -/
def initial (i j : Fin 7) : Game :=
  { grid := emptyGrid
    score := 0
    lines := 0
    level := 1
    gameOver := false
    isPaused := false
    currentPiece := newPiece i
    nextPiece := newPiece j
    dropCounter := 0
    dropInterval := 1000
    lastTime := 0 }

/-- Every occupied cell of the piece maps to a cell of the 20 x 10 grid. -/
def InBounds (p : Piece) : Prop :=
  ∀ r c : Nat, occupied p.shape r c →
    0 ≤ p.x + c ∧ p.x + c < 10 ∧ 0 ≤ p.y + r ∧ p.y + r < 20

/-- Some occupied cell of the piece maps to row `R`, column `C` of the grid. -/
def covers (p : Piece) (R C : Nat) : Prop :=
  ∃ r c : Nat, occupied p.shape r c ∧ p.y + r = R ∧ p.x + c = C

/-- An empty grid whose bottom row is full. -/
def bottomFull : Grid :=
  List.replicate 19 (List.replicate 10 (Val.num 0)) ++ [List.replicate 10 (Val.str "#00ffff")]

/-- One event delivered to the engine: a frame callback running `update(time)`, or a key
press running the `keydown` listener. An event whose handler throws or runs out of fuel
yields no step. -/
inductive Step : Game → Game → Prop where
  | tick (fuel : Nat) (rnd : Fin 7) (time : Int) (s s1 : Game) :
      update fuel rnd time s = some s1 → Step s s1
  | key (fuel : Nat) (rnd : Fin 7) (keyCode : Nat) (s s1 : Game) :
      keydown fuel rnd keyCode s = some s1 → Step s s1

/-- The states reachable from a state by any finite sequence of events. -/
def Reachable : Game → Game → Prop := Relation.ReflTransGen Step

/-- The expression `Math.max(1000 - (this.level - 1) * 100, 100)` that `clearLines()`
assigns to `dropInterval`, as a function of the level. -/
def dropIntervalAt (level : Int) : Int := max (1000 - (level - 1) * 100) 100

/-- A run of frame callbacks: `update(time)` for each time in turn, each with the shape
index its `drop()` would draw. -/
def runTicks (fuel : Nat) : List (Fin 7 × Int) → Game → Option Game
  | [], s => some s
  | (rnd, time) :: rest, s =>
    match update fuel rnd time s with
    | none => none
    | some s1 => runTicks fuel rest s1

/-- A run of key presses: the `keydown` listener for each key code in turn, each with the
shape index its `drop()` would draw. -/
def runKeys (fuel : Nat) : List (Fin 7 × Nat) → Game → Option Game
  | [], s => some s
  | (rnd, keyCode) :: rest, s =>
    match keydown fuel rnd keyCode s with
    | none => none
    | some s1 => runKeys fuel rest s1

/-- The method call `f` made `n` times in a row. -/
def times (f : Game → Option Game) : Nat → Game → Option Game
  | 0, s => some s
  | n + 1, s =>
    match f s with
    | none => none
    | some s1 => times f n s1

/-- The state with the current piece's `x` replaced. -/
def setX (s : Game) (x : Int) : Game :=
  { s with currentPiece := { s.currentPiece with x := x } }

/-- The state with the current piece's `y` replaced. -/
def setY (s : Game) (y : Int) : Game :=
  { s with currentPiece := { s.currentPiece with y := y } }

/-- The safety invariant of the engine: the grid has 20 rows of 10 cells, the current
piece lies inside it with `y >= 0`, and the next piece is a freshly generated one. -/
def Safe (s : Game) : Prop :=
  WF s.grid ∧ InBounds s.currentPiece ∧ 0 ≤ s.currentPiece.y ∧ ∃ k, s.nextPiece = newPiece k

/-- The progress fields are consistent: `level = floor(lines / 10) + 1` (integer division
by 10 rounds down), `dropInterval` is the interval of that level, and `lines` and `score`
are not negative. -/
def Levelled (s : Game) : Prop :=
  s.level = s.lines / 10 + 1 ∧ s.dropInterval = dropIntervalAt s.level ∧
    0 ≤ s.lines ∧ 0 ≤ s.score

/-- From `s` to `s1` none of `lines`, `level` and `score` has decreased. -/
def NotLess (s s1 : Game) : Prop :=
  s.lines ≤ s1.lines ∧ s.level ≤ s1.level ∧ s.score ≤ s1.score

/-- Row 0 of the grid holds only zeros while the game is not over. -/
def TopClear (s : Game) : Prop :=
  s.gameOver = false → ∀ C : Nat, C < 10 → cell s.grid 0 C = Val.num 0

/-- While the game is not over the current piece does not collide, unless it is a piece
exactly as `newPiece` made it. -/
def FreeOrFresh (s : Game) : Prop :=
  s.gameOver = false → collision s = some false ∨ ∃ k, s.currentPiece = newPiece k

/-- Key presses that stack nine O pieces at the spawn columns and then lock an I piece in
row 1: the down arrow pressed until each piece locks, paired with the shape index drawn
at the lock. -/
def jamKeys : List (Fin 7 × Nat) :=
  List.replicate 19 (1, 40) ++ List.replicate 17 (1, 40) ++ List.replicate 15 (1, 40) ++
  List.replicate 13 (1, 40) ++ List.replicate 11 (1, 40) ++ List.replicate 9 (1, 40) ++
  List.replicate 7 (1, 40) ++ List.replicate 5 (0, 40) ++ List.replicate 3 (1, 40) ++
  List.replicate 2 (1, 40)

/-- The state after `jamKeys`: O pieces fill columns 4 and 5 of rows 2 to 19, the I piece
fills columns 4 to 7 of row 1, and a fresh O piece is the current piece at `(4, 0)`. -/
def jammed : Game :=
  { initial 1 1 with
    grid :=
      [List.replicate 10 (Val.num 0),
        List.replicate 4 (Val.num 0) ++ List.replicate 4 (Val.str "#00ffff")
          ++ List.replicate 2 (Val.num 0)]
      ++ List.replicate 18
        (List.replicate 4 (Val.num 0) ++ List.replicate 2 (Val.str "#ffff00")
          ++ List.replicate 4 (Val.num 0)) }

/-- The grid whose only non-empty cells are the nine cells of row 19 at columns other
than 5. -/
def gapGrid : Grid :=
  List.replicate 19 (List.replicate 10 (Val.num 0)) ++
    [List.replicate 5 (Val.str "#ff0000") ++ [Val.num 0] ++ List.replicate 4 (Val.str "#ff0000")]

/-- The grid whose only non-empty cells are the eight cells of row 19 at columns other
than 4 and 5. -/
def gap2Grid : Grid :=
  List.replicate 19 (List.replicate 10 (Val.num 0)) ++
    [List.replicate 4 (Val.str "#ff0000") ++ [Val.num 0, Val.num 0]
      ++ List.replicate 4 (Val.str "#ff0000")]

/-- The grid `gap2Grid` with the O piece written into columns 4 and 5 of rows 18 and 19. -/
def gap2Merged : Grid :=
  List.replicate 18 (List.replicate 10 (Val.num 0)) ++
    [List.replicate 4 (Val.num 0) ++ List.replicate 2 (Val.str "#ffff00")
        ++ List.replicate 4 (Val.num 0),
      List.replicate 4 (Val.str "#ff0000") ++ List.replicate 2 (Val.str "#ffff00")
        ++ List.replicate 4 (Val.str "#ff0000")]

/-- The state after a free fall to row `y`: the piece's `y` replaced and the drop counter
reset. -/
def fallen (s : Game) (y : Int) : Game :=
  { setY s y with dropCounter := 0 }

/-- The progress counters lie in the range where the engine's number arithmetic is exact.
JavaScript numbers are doubles: every integer of absolute value at most `2^53` is
represented, and a sum or product of such integers is computed without rounding when the
true result lies in that range again. With `|score| <= 2^52`, `|lines| <= 2^52` and
`|level| <= 2^40` one pass of `clearLines()`, which removes at most 20 rows, stays inside
it: `linesCleared * 100 * level` is at most `2000 * 2^40 < 2^51` in absolute value.
`Math.floor(lines / 10)` is then the floor of the exact quotient too: the quotient is
below `2^50`, so its rounding error is below `1/16`, while a quotient that is not an
integer lies at least `1/10` away from the integers. -/
def ExactRange (s : Game) : Prop :=
  -4503599627370496 ≤ s.score ∧ s.score ≤ 4503599627370496 ∧
    -4503599627370496 ≤ s.lines ∧ s.lines ≤ 4503599627370496 ∧
    -1099511627776 ≤ s.level ∧ s.level ≤ 1099511627776

instance (s : Game) : Decidable (ExactRange s) := by
  unfold ExactRange; infer_instance

/-! ## Lemmas on the iteration helpers and on collision -/

theorem someIdx_spec {α : Type} (f : α → Nat → Option Bool) (P : α → Nat → Prop) :
    ∀ (l : List α) (i0 : Nat),
      (∀ k a, l[k]? = some a →
        (f a (i0 + k) = some true ∧ P a (i0 + k)) ∨ (f a (i0 + k) = some false ∧ ¬ P a (i0 + k))) →
      (someIdx f l i0 = some true ∧ ∃ k a, l[k]? = some a ∧ P a (i0 + k)) ∨
      (someIdx f l i0 = some false ∧ ¬ ∃ k a, l[k]? = some a ∧ P a (i0 + k)) := by
  intro l
  induction l with
  | nil => intro i0 _; right; simp [someIdx]
  | cons a rest ih =>
    intro i0 h
    have h0 := h 0 a (by simp)
    simp only [Nat.add_zero] at h0
    rcases h0 with ⟨hf, hp⟩ | ⟨hf, hp⟩
    · left
      refine ⟨by simp [someIdx, hf], 0, a, by simp, by simpa using hp⟩
    · have hrest := ih (i0 + 1) (by
        intro k b hk
        have := h (k + 1) b (by simpa using hk)
        rwa [show i0 + (k + 1) = i0 + 1 + k by omega] at this)
      rcases hrest with ⟨hs, k, b, hk, hP⟩ | ⟨hs, hn⟩
      · left
        refine ⟨by simp [someIdx, hf, hs], k + 1, b, by simpa using hk, ?_⟩
        rwa [show i0 + (k + 1) = i0 + 1 + k by omega]
      · right
        refine ⟨by simp [someIdx, hf, hs], ?_⟩
        rintro ⟨k, b, hk, hP⟩
        cases k with
        | zero =>
          simp at hk
          subst hk
          exact hp (by simpa using hP)
        | succ k =>
          apply hn
          refine ⟨k, b, by simpa using hk, ?_⟩
          rwa [show i0 + (k + 1) = i0 + 1 + k by omega] at hP

theorem WF_row {g : Grid} (hg : WF g) {i : Nat} (hi : i < 20) :
    ∃ row, g[i]? = some row ∧ row.length = 10 := by
  obtain ⟨hl, hr⟩ := hg
  have hi2 : i < g.length := by omega
  refine ⟨g[i], by simp [hi2], hr _ (List.getElem_mem _)⟩

theorem cell_eq_of_getElem? {g : Grid} {R : Nat} {row : List Val} (h : g[R]? = some row) (C : Nat) :
    cell g R C = row.getD C Val.undef := by
  simp [cell, List.getD_eq_getElem?_getD, h]

theorem occupied_iff (shape : Shape) (r c : Nat) :
    occupied shape r c ↔ ∃ row v, shape[r]? = some row ∧ row[c]? = some v ∧ truthy v = true := by
  unfold occupied cell
  simp only [List.getD_eq_getElem?_getD]
  constructor
  · intro h
    cases hr : shape[r]? with
    | none => simp [hr, truthy] at h
    | some row =>
      cases hc : row[c]? with
      | none => simp [hr, hc, truthy] at h
      | some v => exact ⟨row, v, rfl, hc, by simpa [hr, hc] using h⟩
  · rintro ⟨row, v, hr, hc, hv⟩
    simp [hr, hc, hv]

theorem collisionCell_spec (s : Game) (hg : WF s.grid) (value : Val) (x y : Nat) :
    (collisionCell s value x y = some true ∧
      (truthy value = true ∧ hits s.grid (s.currentPiece.x + x) (s.currentPiece.y + y))) ∨
    (collisionCell s value x y = some false ∧
      ¬ (truthy value = true ∧ hits s.grid (s.currentPiece.x + x) (s.currentPiece.y + y))) := by
  unfold collisionCell hits
  cases hv : truthy value with
  | false => right; simp
  | true =>
    simp only [Bool.not_true, Bool.false_eq_true, if_false, GRID_WIDTH, GRID_HEIGHT, true_and]
    by_cases h1 : s.currentPiece.x + x < 0 ∨ s.currentPiece.x + x ≥ 10 ∨ s.currentPiece.y + y ≥ 20
    · left
      simp only [h1, if_true, true_and]
      tauto
    · simp only [h1, if_false]
      push_neg at h1
      by_cases h2 : s.currentPiece.y + y ≥ 0
      · simp only [h2, if_true]
        obtain ⟨row, hrow, hlen⟩ := WF_row hg (i := (s.currentPiece.y + y).toNat) (by omega)
        rw [hrow]
        simp only
        have hc : cell s.grid (s.currentPiece.y + y).toNat (s.currentPiece.x + x).toNat
            = jsGet row (s.currentPiece.x + x) := by
          rw [cell_eq_of_getElem? hrow]
          have hx : ¬ (s.currentPiece.x + x < 0) := by omega
          simp [jsGet, hx]
        rw [hc]
        cases ht : truthy (jsGet row (s.currentPiece.x + x)) with
        | true => left; simp; omega
        | false => right; simp; omega
      · right
        refine ⟨by simp only [h2, if_false], ?_⟩
        omega

theorem collision_spec (s : Game) (hg : WF s.grid) :
    (collision s = some true ∧
      ∃ r c : Nat, occupied s.currentPiece.shape r c ∧
        hits s.grid (s.currentPiece.x + c) (s.currentPiece.y + r)) ∨
    (collision s = some false ∧
      ¬ ∃ r c : Nat, occupied s.currentPiece.shape r c ∧
        hits s.grid (s.currentPiece.x + c) (s.currentPiece.y + r)) := by
  have inner : ∀ (row : List Val) (y : Nat),
      (someIdx (fun value x => collisionCell s value x y) row 0 = some true ∧
        ∃ (c : Nat) (v : Val), row[c]? = some v ∧
          (truthy v = true ∧ hits s.grid (s.currentPiece.x + c) (s.currentPiece.y + y))) ∨
      (someIdx (fun value x => collisionCell s value x y) row 0 = some false ∧
        ¬ ∃ (c : Nat) (v : Val), row[c]? = some v ∧
          (truthy v = true ∧ hits s.grid (s.currentPiece.x + c) (s.currentPiece.y + y))) := by
    intro row y
    have h := someIdx_spec (fun value x => collisionCell s value x y)
      (fun v c => truthy v = true ∧ hits s.grid (s.currentPiece.x + c) (s.currentPiece.y + y))
      row 0 (by
        intro k a _
        simpa using collisionCell_spec s hg a k y)
    simpa using h
  have outer := someIdx_spec
    (fun row y => someIdx (fun value x => collisionCell s value x y) row 0)
    (fun row y => ∃ (c : Nat) (v : Val), row[c]? = some v ∧
      (truthy v = true ∧ hits s.grid (s.currentPiece.x + c) (s.currentPiece.y + y)))
    s.currentPiece.shape 0 (by
      intro k a _
      simpa using inner a k)
  have key : (∃ r c : Nat, occupied s.currentPiece.shape r c ∧
        hits s.grid (s.currentPiece.x + c) (s.currentPiece.y + r)) ↔
      ∃ (k : Nat) (a : List Val), s.currentPiece.shape[k]? = some a ∧ ∃ (c : Nat) (v : Val), a[c]? = some v ∧
        (truthy v = true ∧ hits s.grid (s.currentPiece.x + c) (s.currentPiece.y + (0 + k : Nat))) := by
    constructor
    · rintro ⟨r, c, ho, hh⟩
      obtain ⟨row, v, hr, hc, hv⟩ := (occupied_iff _ _ _).1 ho
      exact ⟨r, row, hr, c, v, hc, hv, by simpa using hh⟩
    · rintro ⟨r, row, hr, c, v, hc, hv, hh⟩
      exact ⟨r, c, (occupied_iff _ _ _).2 ⟨row, v, hr, hc, hv⟩, by simpa using hh⟩
  unfold collision
  rw [key]
  exact outer

theorem collision_total (s : Game) (hg : WF s.grid) : ∃ b, collision s = some b := by
  rcases collision_spec s hg with ⟨h, _⟩ | ⟨h, _⟩
  · exact ⟨true, h⟩
  · exact ⟨false, h⟩

/-! ## The claims -/

/-- C1: on a grid of 20 rows of 10 cells `collision()` returns a value, and that value is
true if and only if some occupied cell `(r, c)` of the shape maps to a board position
`(x + c, y + r)` with `x + c < 0`, or `x + c >= 10`, or `y + r >= 20`, or inside the grid
on a non-empty cell; when every occupied cell maps to a negative row inside the column
range the answer is false. -/
theorem C1_collision_iff (s : Game) (hg : WF s.grid) :
    (∃ b, collision s = some b ∧
      (b = true ↔
        ∃ r c : Nat, occupied s.currentPiece.shape r c ∧
          (s.currentPiece.x + c < 0 ∨ s.currentPiece.x + c ≥ 10 ∨ s.currentPiece.y + r ≥ 20 ∨
            (0 ≤ s.currentPiece.y + r ∧ s.currentPiece.y + r < 20 ∧
              0 ≤ s.currentPiece.x + c ∧ s.currentPiece.x + c < 10 ∧
              truthy (cell s.grid (s.currentPiece.y + r).toNat (s.currentPiece.x + c).toNat)
                = true)))) ∧
    ((∀ r c : Nat, occupied s.currentPiece.shape r c →
        s.currentPiece.y + r < 0 ∧ 0 ≤ s.currentPiece.x + c ∧ s.currentPiece.x + c < 10) →
      collision s = some false) := by
  have h := collision_spec s hg
  unfold hits at h
  constructor
  · rcases h with ⟨hc, he⟩ | ⟨hc, hn⟩
    · exact ⟨true, hc, by simpa using he⟩
    · exact ⟨false, hc, by simpa using hn⟩
  · intro hneg
    rcases h with ⟨_, r, c, ho, hh⟩ | ⟨hc, _⟩
    · have := hneg r c ho
      omega
    · exact hc

theorem C1_collision_iff_witness :
    WF (initial 1 0).grid ∧
      collision { initial 1 0 with
        currentPiece := { (initial 1 0).currentPiece with y := -2 } } = some false :=
  ⟨by decide,
    (C1_collision_iff
      { initial 1 0 with currentPiece := { (initial 1 0).currentPiece with y := -2 } }
      (by decide)).2 (by
        intro r c h
        have hr : r < 2 := by
          by_contra hr
          obtain ⟨k, rfl⟩ : ∃ k, r = k + 2 := ⟨r - 2, by omega⟩
          simp [occupied, cell, initial, newPiece, SHAPES, truthy] at h
        have hc : c < 2 := by
          by_contra hc
          obtain ⟨k, rfl⟩ : ∃ k, c = k + 2 := ⟨c - 2, by omega⟩
          have hr2 : r = 0 ∨ r = 1 := by omega
          rcases hr2 with rfl | rfl <;>
            simp [occupied, cell, initial, newPiece, SHAPES, truthy] at h
        simp only [initial, newPiece, GRID_WIDTH]
        omega)⟩

/-- C2: `move(dir)` returns; when the piece shifted by `dir` collides the state is exactly
the state before, otherwise only the piece's `x` changes, by exactly `dir`. -/
theorem C2_move (s : Game) (hg : WF s.grid) (dir : Int) :
    (∃ b, collision
        { s with currentPiece := { s.currentPiece with x := s.currentPiece.x + dir } } = some b) ∧
    (collision { s with currentPiece := { s.currentPiece with x := s.currentPiece.x + dir } }
        = some true → move dir s = some s) ∧
    (collision { s with currentPiece := { s.currentPiece with x := s.currentPiece.x + dir } }
        = some false →
      move dir s =
        some { s with currentPiece := { s.currentPiece with x := s.currentPiece.x + dir } }) := by
  refine ⟨collision_total _ hg, ?_, ?_⟩
  · intro h
    simp only [move, h]
    congr 1
    cases s with
    | mk grid score lines level gameOver isPaused currentPiece nextPiece dc di lt =>
      cases currentPiece with
      | mk shape color x y => simp
  · intro h
    simp only [move, h]

theorem C2_move_witness :
    WF (initial 0 1).grid ∧ move (-5) (initial 0 1) = some (initial 0 1) :=
  ⟨by decide, (C2_move (initial 0 1) (by decide) (-5)).2.1 (by decide)⟩

/-! ## Lemmas on rotation -/

theorem cell_of_lt {M : List (List Val)} {h w : Nat} (hM : Rect M h w) {i : Nat} (hi : i < h) :
    ∃ row, M[i]? = some row ∧ row.length = w ∧ ∀ j, cell M i j = row.getD j Val.undef := by
  obtain ⟨hl, hr⟩ := hM
  have hi2 : i < M.length := by omega
  refine ⟨M[i], by simp [hi2], hr _ (List.getElem_mem _), fun j => ?_⟩
  exact cell_eq_of_getElem? (by simp [hi2]) j

theorem rect_ext {A B : List (List Val)} {h w : Nat} (hA : Rect A h w) (hB : Rect B h w)
    (hcell : ∀ i j, i < h → j < w → cell A i j = cell B i j) : A = B := by
  apply List.ext_getElem (by rw [hA.1, hB.1])
  intro i h1 h2
  have hi : i < h := by rw [← hA.1]; exact h1
  have ha : (A[i]).length = w := hA.2 _ (List.getElem_mem _)
  have hb : (B[i]).length = w := hB.2 _ (List.getElem_mem _)
  apply List.ext_getElem (by rw [ha, hb])
  intro j h3 h4
  have hj : j < w := by rw [← ha]; exact h3
  have := hcell i j hi hj
  simpa [cell, List.getD_eq_getElem?_getD, h1, h2, h3, h4] using this

theorem rotatedShape_spec {M : Shape} {h w : Nat} (hM : Rect M h w) (hh : 0 < h) :
    ∃ R, rotatedShape M = some R ∧ Rect R w h ∧
      ∀ i j, i < w → j < h → cell R i j = cell M j (w - 1 - i) := by
  obtain ⟨hl, hr⟩ := hM
  cases M with
  | nil => simp at hl; omega
  | cons row0 rest =>
    have h0 : row0.length = w := hr row0 (by simp)
    refine ⟨_, rfl, ⟨by simp [h0], ?_⟩, ?_⟩
    · intro row hrow
      simp only [List.mem_map, List.mem_range] at hrow
      obtain ⟨i, _, rfl⟩ := hrow
      simpa using hl
    · intro i j hi hj
      have hj2 : j < (row0 :: rest).length := by omega
      have hrow : ((row0 :: rest)[j]).length = w := hr _ (List.getElem_mem _)
      have e1 : cell (row0 :: rest) j (w - 1 - i)
          = ((row0 :: rest)[j]).getD (w - 1 - i) Val.undef :=
        cell_eq_of_getElem? (by simp [hj2]) _
      have e2 : cell ((List.range row0.length).map fun (i : Nat) =>
            (row0 :: rest).map fun row => jsGet row ((row.length : Int) - 1 - (i : Int))) i j
          = jsGet ((row0 :: rest)[j]) ((((row0 :: rest)[j]).length : Int) - 1 - (i : Int)) := by
        simp only [cell, List.getD_eq_getElem?_getD, List.getElem?_map]
        rw [List.getElem?_range (by omega)]
        simp only [Option.map_some', Option.getD_some, List.getElem?_map]
        rw [List.getElem?_eq_getElem hj2]
        simp
      rw [e1, e2, hrow]
      have hlt : ¬ ((w : Int) - 1 - (i : Int) < 0) := by omega
      have hnat : ((w : Int) - 1 - (i : Int)).toNat = w - 1 - i := by omega
      simp [jsGet, hlt, hnat]

theorem rotatedShape_four {M : Shape} {h w : Nat} (hM : Rect M h w) (hh : 0 < h) (hw : 0 < w) :
    ∃ R1 R2 R3, rotatedShape M = some R1 ∧ rotatedShape R1 = some R2 ∧
      rotatedShape R2 = some R3 ∧ rotatedShape R3 = some M ∧
      Rect R1 w h ∧ Rect R2 h w ∧ Rect R3 w h := by
  obtain ⟨R1, e1, r1, c1⟩ := rotatedShape_spec hM hh
  obtain ⟨R2, e2, r2, c2⟩ := rotatedShape_spec r1 hw
  obtain ⟨R3, e3, r3, c3⟩ := rotatedShape_spec r2 hh
  obtain ⟨R4, e4, r4, c4⟩ := rotatedShape_spec r3 hw
  have : R4 = M := by
    apply rect_ext r4 hM
    intro i j hi hj
    rw [c4 i j hi hj, c3 j (h - 1 - i) hj (by omega), c2 (h - 1 - i) (w - 1 - j) (by omega) (by omega),
      c1 (w - 1 - j) (h - 1 - (h - 1 - i)) (by omega) (by omega)]
    congr 1 <;> omega
  subst this
  exact ⟨R1, R2, R3, e1, e2, e3, e4, r1, r2, r3⟩

/-- C3, as stated, fails: for the T shape `[[1,1,1],[0,1,0]]` (2 rows, 3 columns) the
candidate shape of `rotate()` is `[[1,0],[1,1],[1,0]]`, whose entry `[0][0]` is `1`, while
the clockwise formula `R[i][j] = M[h-1-j][i]` asks for `M[1][0] = 0` there. -/
theorem C3_clockwise_counterexample :
    rotatedShape [[.num 1, .num 1, .num 1], [.num 0, .num 1, .num 0]]
        = some [[.num 1, .num 0], [.num 1, .num 1], [.num 1, .num 0]] ∧
      ¬ (∀ i j : Nat, i < 3 → j < 2 →
          cell [[.num 1, .num 0], [.num 1, .num 1], [.num 1, .num 0]] i j
            = cell [[.num 1, .num 1, .num 1], [.num 0, .num 1, .num 0]] (2 - 1 - j) i) := by
  refine ⟨by decide, fun h => ?_⟩
  have h00 := h 0 0 (by decide) (by decide)
  revert h00
  decide

/-- C3, amended: for a rectangular shape matrix `M` with `h >= 1` rows and `w` columns the
candidate shape that `rotate()` computes is the `w`-by-`h` matrix `R` with
`R[i][j] = M[j][w-1-i]`: the transpose of `M` with the order of its rows reversed, a
90 degree counter-clockwise rotation of the bounding box. -/
theorem C3_rotatedShape_entries (M : Shape) (h w : Nat) (hM : Rect M h w) (hh : 0 < h) :
    ∃ R, rotatedShape M = some R ∧ Rect R w h ∧
      ∀ i j, i < w → j < h → cell R i j = cell M j (w - 1 - i) :=
  rotatedShape_spec hM hh

theorem C3_rotatedShape_entries_witness :
    Rect [[.num 1, .num 1, .num 1], [.num 0, .num 1, .num 0]] 2 3 ∧ 0 < 2 ∧
      ∃ R, rotatedShape [[.num 1, .num 1, .num 1], [.num 0, .num 1, .num 0]] = some R ∧
        Rect R 3 2 ∧
        ∀ i j, i < 3 → j < 2 →
          cell R i j = cell [[.num 1, .num 1, .num 1], [.num 0, .num 1, .num 0]] j (3 - 1 - i) :=
  ⟨by decide, by decide,
    C3_rotatedShape_entries [[.num 1, .num 1, .num 1], [.num 0, .num 1, .num 0]] 2 3
      (by decide) (by decide)⟩

/-- C4: for a rectangular shape matrix with `h >= 1` rows and `w >= 1` columns, four
successive applications of the rotation of `rotate()` all return and give back the
original matrix, and each application swaps the dimensions (`h x w` becomes `w x h`). -/
theorem C4_rotate_four_times (M : Shape) (h w : Nat) (hM : Rect M h w) (hh : 0 < h)
    (hw : 0 < w) :
    ∃ R1 R2 R3, rotatedShape M = some R1 ∧ rotatedShape R1 = some R2 ∧
      rotatedShape R2 = some R3 ∧ rotatedShape R3 = some M ∧
      Rect R1 w h ∧ Rect R2 h w ∧ Rect R3 w h :=
  rotatedShape_four hM hh hw

theorem C4_rotate_four_times_witness :
    Rect [[.num 1, .num 1, .num 0], [.num 0, .num 1, .num 1]] 2 3 ∧ 0 < 2 ∧ 0 < 3 ∧
      ∃ R1 R2 R3,
        rotatedShape [[.num 1, .num 1, .num 0], [.num 0, .num 1, .num 1]] = some R1 ∧
        rotatedShape R1 = some R2 ∧ rotatedShape R2 = some R3 ∧
        rotatedShape R3 = some [[.num 1, .num 1, .num 0], [.num 0, .num 1, .num 1]] ∧
        Rect R1 3 2 ∧ Rect R2 2 3 ∧ Rect R3 3 2 :=
  ⟨by decide, by decide, by decide,
    C4_rotate_four_times [[.num 1, .num 1, .num 0], [.num 0, .num 1, .num 1]] 2 3
      (by decide) (by decide) (by decide)⟩

/-- C5: on a grid of 20 rows of 10 cells and a non-empty shape, `rotate()` returns; the
piece's `x`, `y` and colour, the grid and every other field are as before; the shape
afterwards is the shape before when the rotated shape collides at the unchanged position,
and the rotated shape when it does not. -/
theorem C5_rotate (s : Game) (hg : WF s.grid) (hne : s.currentPiece.shape ≠ []) :
    ∃ rotated b, rotatedShape s.currentPiece.shape = some rotated ∧
      collision { s with currentPiece := { s.currentPiece with shape := rotated } } = some b ∧
      (b = true → rotate s = some s) ∧
      (b = false →
        rotate s = some { s with currentPiece := { s.currentPiece with shape := rotated } }) := by
  obtain ⟨rotated, hrot⟩ : ∃ rotated, rotatedShape s.currentPiece.shape = some rotated := by
    cases hs : s.currentPiece.shape with
    | nil => exact absurd hs hne
    | cons row0 rest => exact ⟨_, rfl⟩
  obtain ⟨b, hb⟩ := collision_total
    { s with currentPiece := { s.currentPiece with shape := rotated } } hg
  refine ⟨rotated, b, hrot, hb, ?_, ?_⟩
  · rintro rfl
    simp only [rotate, hrot, hb]
  · rintro rfl
    simp only [rotate, hrot, hb]

theorem C5_rotate_witness :
    WF (initial 0 1).grid ∧ (initial 0 1).currentPiece.shape ≠ [] ∧
      rotate (initial 0 1) = some { initial 0 1 with
        currentPiece := { (initial 0 1).currentPiece with
          shape := [[.num 1], [.num 1], [.num 1], [.num 1]] } } := by
  refine ⟨by decide, by decide, ?_⟩
  obtain ⟨rotated, b, hrot, hb, _, h2⟩ := C5_rotate (initial 0 1) (by decide) (by decide)
  have e : rotated = [[.num 1], [.num 1], [.num 1], [.num 1]] := by
    have : rotatedShape (initial 0 1).currentPiece.shape
        = some [[.num 1], [.num 1], [.num 1], [.num 1]] := by decide
    rw [this] at hrot
    exact (Option.some.inj hrot).symm
  subst e
  have eb : b = false := by
    have : collision { initial 0 1 with
        currentPiece := { (initial 0 1).currentPiece with
          shape := [[.num 1], [.num 1], [.num 1], [.num 1]] } } = some false := by decide
    rw [this] at hb
    exact (Option.some.inj hb).symm
  exact h2 eb

/-! ## Lemmas on the line-clear loop -/

theorem clearLoop_exit (fuel : Nat) (grid : Grid) (c : Nat) :
    clearLoop (fuel + 1) grid (-1) c = some (grid, c) := by
  simp [clearLoop]

theorem clearLoop_full (fuel : Nat) (grid : Grid) (k c : Nat) (row : List Val)
    (hrow : grid[k]? = some row) (hfull : rowFull row = true) :
    clearLoop (fuel + 1) grid (k : Int) c
      = clearLoop fuel (fillZero row :: grid.eraseIdx k) (k : Int) (c + 1) := by
  have hk : ¬ ((k : Int) < 0) := by omega
  simp [clearLoop, hk, hrow, hfull]

theorem clearLoop_skip (fuel : Nat) (grid : Grid) (k c : Nat) (row : List Val)
    (hrow : grid[k]? = some row) (hfull : rowFull row = false) :
    clearLoop (fuel + 1) grid (k : Int) c = clearLoop fuel grid ((k : Int) - 1) c := by
  have hk : ¬ ((k : Int) < 0) := by omega
  simp [clearLoop, hk, hrow, hfull]

theorem getElem?_middle {α : Type} (L : List α) (a : α) (R : List α) :
    (L ++ a :: R)[L.length]? = some a := by
  rw [List.getElem?_append_right (Nat.le_refl _)]
  simp

/-- Scanning upwards through rows that are not full leaves the grid as it is. -/
theorem clearLoop_prefix (Zs : List (List Val)) :
    ∀ (C : Grid) (c fuel : Nat), (∀ z ∈ Zs, rowFull z = false) → Zs.length + 1 ≤ fuel →
      clearLoop fuel (Zs ++ C) ((Zs.length : Int) - 1) c = some (Zs ++ C, c) := by
  induction Zs using List.reverseRecOn with
  | nil =>
    intro C c fuel _ hf
    obtain ⟨f, rfl⟩ : ∃ f, fuel = f + 1 := ⟨fuel - 1, by omega⟩
    simpa using clearLoop_exit f C c
  | append_singleton Zs z ih =>
    intro C c fuel hz hf
    obtain ⟨f, rfl⟩ : ∃ f, fuel = f + 1 := ⟨fuel - 1, by omega⟩
    have hrow : (Zs ++ [z] ++ C)[Zs.length]? = some z := by
      have := getElem?_middle Zs z C
      simpa using this
    have hnf : rowFull z = false := hz z (by simp)
    have hy : (((Zs ++ [z]).length : Nat) : Int) - 1 = (Zs.length : Int) := by simp
    rw [hy, clearLoop_skip f _ _ c z hrow hnf]
    have := ih (z :: C) c f (fun r hr => hz r (by simp [hr])) (by simp at hf; omega)
    simpa using this

/-- The scan of `clearLoop` over the rows `A`, below a block `Zs` of rows that are not full
and above the rows `C` already passed: the full rows of `A` are replaced by their
zero-filled copies on top of the grid, in the same order. -/
theorem clearLoop_scan (A : List (List Val)) :
    ∀ (Zs : List (List Val)) (C : Grid) (c fuel : Nat),
      (∀ z ∈ Zs, rowFull z = false) → (∀ a ∈ A, a ≠ []) →
      2 * A.length + Zs.length + 1 ≤ fuel →
      clearLoop fuel (Zs ++ A ++ C) (((Zs.length + A.length : Nat) : Int) - 1) c
        = some ((A.filter rowFull).map fillZero ++ Zs ++ A.filter (fun r => !rowFull r) ++ C,
            c + (A.filter rowFull).length) := by
  induction A using List.reverseRecOn with
  | nil =>
    intro Zs C c fuel hz _ hf
    have := clearLoop_prefix Zs C c fuel hz (by simp at hf; omega)
    simpa using this
  | append_singleton A a ih =>
    intro Zs C c fuel hz hne hf
    simp only [List.length_append, List.length_singleton] at hf
    obtain ⟨f, rfl⟩ : ∃ f, fuel = f + 1 := ⟨fuel - 1, by omega⟩
    have hrow : (Zs ++ (A ++ [a]) ++ C)[Zs.length + A.length]? = some a := by
      have := getElem?_middle (Zs ++ A) a C
      simpa using this
    have hy : (((Zs.length + (A ++ [a]).length : Nat) : Nat) : Int) - 1
        = ((Zs.length + A.length : Nat) : Int) := by
      simp only [List.length_append, List.length_singleton]
      omega
    rw [hy]
    cases hfull : rowFull a with
    | true =>
      rw [clearLoop_full f _ _ c a hrow hfull]
      have herase : (Zs ++ (A ++ [a]) ++ C).eraseIdx (Zs.length + A.length) = Zs ++ A ++ C := by
        have e : Zs ++ (A ++ [a]) ++ C = (Zs ++ A) ++ (a :: C) := by simp
        rw [e, List.eraseIdx_append_of_length_le (by simp)]
        simp
      rw [herase]
      have hzero : rowFull (fillZero a) = false := by
        have hane : a ≠ [] := hne a (by simp)
        cases a with
        | nil => exact absurd rfl hane
        | cons v rest => simp [rowFull, fillZero, truthy]
      have := ih (fillZero a :: Zs) C (c + 1) f
        (by
          intro z hzm
          rcases List.mem_cons.1 hzm with rfl | hzm
          · exact hzero
          · exact hz z hzm)
        (fun r hr => hne r (by simp [hr])) (by simp; omega)
      have hy2 : ((((fillZero a :: Zs).length + A.length : Nat) : Nat) : Int) - 1
          = ((Zs.length + A.length : Nat) : Int) := by
        simp only [List.length_cons]
        omega
      rw [hy2] at this
      simp only [List.cons_append] at this
      rw [this]
      simp [List.filter_append, hfull]
      omega
    | false =>
      rw [clearLoop_skip f _ _ c a hrow hfull]
      have := ih Zs (a :: C) c f hz (fun r hr => hne r (by simp [hr])) (by omega)
      have e : Zs ++ (A ++ [a]) ++ C = Zs ++ A ++ a :: C := by simp
      rw [e, this]
      simp [List.filter_append, hfull]

theorem clearLoop_whole (g : Grid) (fuel : Nat) (hne : ∀ a ∈ g, a ≠ [])
    (hf : 2 * g.length + 1 ≤ fuel) :
    clearLoop fuel g ((g.length : Int) - 1) 0
      = some ((g.filter rowFull).map fillZero ++ g.filter (fun r => !rowFull r),
          (g.filter rowFull).length) := by
  have := clearLoop_scan g [] [] 0 fuel (by simp) hne (by simpa using hf)
  simpa using this

theorem fillZero_of_length {row : List Val} {w : Nat} (h : row.length = w) :
    fillZero row = List.replicate w (Val.num 0) := by
  subst h
  unfold fillZero
  induction row with
  | nil => rfl
  | cons v rest ih => simp [List.replicate_succ, ih]

theorem WF_rows_ne_nil {g : Grid} (hg : WF g) : ∀ a ∈ g, a ≠ [] := by
  intro a ha hnil
  have := hg.2 a ha
  subst hnil
  simp at this

theorem cleared_rows_eq {g : Grid} (hg : WF g) :
    (g.filter rowFull).map fillZero
      = List.replicate (g.countP rowFull) (List.replicate 10 (Val.num 0)) := by
  rw [List.countP_eq_length_filter]
  apply List.eq_replicate_iff.2
  refine ⟨by simp, ?_⟩
  intro r hr
  obtain ⟨a, ha, rfl⟩ := List.mem_map.1 hr
  exact fillZero_of_length (hg.2 a (List.mem_of_mem_filter ha))

theorem countP_add_filter_not (g : Grid) :
    g.countP rowFull + (g.filter (fun r => !rowFull r)).length = g.length := by
  induction g with
  | nil => rfl
  | cons a rest ih =>
    cases h : rowFull a <;> simp [List.countP_cons, List.filter_cons, h] <;> omega

/-- What `clearLines()` computes on a grid of 20 rows of 10 cells. -/
theorem clearLines_spec (s : Game) (fuel : Nat) (hg : WF s.grid) (hf : 41 ≤ fuel) :
    clearLines fuel s =
      some (if 0 < s.grid.countP rowFull then
        { s with
          grid := List.replicate (s.grid.countP rowFull) (List.replicate 10 (Val.num 0))
            ++ s.grid.filter (fun r => !rowFull r)
          score := s.score + (s.grid.countP rowFull : Int) * 100 * s.level
          lines := s.lines + (s.grid.countP rowFull : Int)
          level := (s.lines + (s.grid.countP rowFull : Int)) / 10 + 1
          dropInterval :=
            max (1000 - ((s.lines + (s.grid.countP rowFull : Int)) / 10 + 1 - 1) * 100) 100 }
      else
        { s with
          grid := List.replicate (s.grid.countP rowFull) (List.replicate 10 (Val.num 0))
            ++ s.grid.filter (fun r => !rowFull r) }) := by
  have hloop := clearLoop_whole s.grid fuel (WF_rows_ne_nil hg) (by rw [hg.1]; omega)
  rw [cleared_rows_eq hg, ← List.countP_eq_length_filter] at hloop
  unfold clearLines
  rw [hloop]
  simp only [gt_iff_lt]
  split <;> rfl

theorem WF_cleared {g : Grid} (hg : WF g) :
    WF (List.replicate (g.countP rowFull) (List.replicate 10 (Val.num 0))
      ++ g.filter (fun r => !rowFull r)) := by
  constructor
  · have := countP_add_filter_not g
    rw [List.length_append, List.length_replicate, this, hg.1]
  · intro row hrow
    rcases List.mem_append.1 hrow with h | h
    · rw [(List.mem_replicate.1 h).2]
      simp
    · exact hg.2 row (List.mem_of_mem_filter h)

/-- C6: on a grid of 20 rows of 10 cells `clearLines()` returns (with fuel for 41 loop
tests); the grid afterwards has 20 rows of 10 cells and consists of `n` rows of zeros
followed by the rows of the input grid that are not full, in their original order, where
`n` is the number of rows of the input grid whose cells are all non-empty. -/
theorem C6_clearLines_grid (s : Game) (fuel : Nat) (hg : WF s.grid) (hf : 41 ≤ fuel) :
    ∃ s1, clearLines fuel s = some s1 ∧ WF s1.grid ∧
      s1.grid = List.replicate (s.grid.countP rowFull) (List.replicate 10 (Val.num 0))
        ++ s.grid.filter (fun r => !rowFull r) ∧
      (s.grid.filter (fun r => !rowFull r)).length = 20 - s.grid.countP rowFull := by
  refine ⟨_, clearLines_spec s fuel hg hf, ?_, ?_, ?_⟩
  · split <;> exact WF_cleared hg
  · split <;> rfl
  · have := countP_add_filter_not s.grid
    rw [hg.1] at this
    omega

theorem C6_clearLines_grid_witness :
    WF ({ initial 0 1 with grid := bottomFull } : Game).grid ∧ 41 ≤ 41 ∧
      ∃ s1, clearLines 41 { initial 0 1 with grid := bottomFull } = some s1 ∧
        s1.grid = emptyGrid := by
  refine ⟨by decide, by decide, ?_⟩
  obtain ⟨s1, h1, _, h3, _⟩ :=
    C6_clearLines_grid { initial 0 1 with grid := bottomFull } 41 (by decide) (by decide)
  refine ⟨s1, h1, ?_⟩
  rw [h3]
  decide

/-- C7: on a grid of 20 rows of 10 cells, with score, lines and level in the range where
the code's number arithmetic is exact, `clearLines()` returns, and with `n` the number of
full rows of the input grid: if `n > 0` then the score grows by `n * 100 * level_before`,
`lines` grows by `n`, `level = floor(lines_after / 10) + 1` and
`dropInterval = max(1000 - (level_after - 1) * 100, 100)`; if `n = 0` then score, lines,
level and dropInterval are unchanged. The product `n * 100 * level` and the new score and
lines are at most `2^53` in absolute value, so none of them is rounded by the code. -/
theorem C7_clearLines_score (s : Game) (fuel : Nat) (hg : WF s.grid) (hf : 41 ≤ fuel)
    (hrange : ExactRange s) :
    ∃ s1, clearLines fuel s = some s1 ∧
      (0 < s.grid.countP rowFull →
        s1.score = s.score + (s.grid.countP rowFull : Int) * 100 * s.level ∧
        s1.lines = s.lines + (s.grid.countP rowFull : Int) ∧
        s1.level = ⌊((s.lines + (s.grid.countP rowFull : Int) : Int) : ℚ) / 10⌋ + 1 ∧
        s1.dropInterval = max (1000 - (s1.level - 1) * 100) 100) ∧
      (s.grid.countP rowFull = 0 →
        s1.score = s.score ∧ s1.lines = s.lines ∧ s1.level = s.level ∧
        s1.dropInterval = s.dropInterval) ∧
      (-9007199254740992 ≤ (s.grid.countP rowFull : Int) * 100 * s.level ∧
        (s.grid.countP rowFull : Int) * 100 * s.level ≤ 9007199254740992 ∧
        -9007199254740992 ≤ s1.score ∧ s1.score ≤ 9007199254740992 ∧
        -9007199254740992 ≤ s1.lines ∧ s1.lines ≤ 9007199254740992) := by
  refine ⟨_, clearLines_spec s fuel hg hf, ?_, ?_, ?_⟩
  · intro hn
    rw [if_pos hn]
    refine ⟨rfl, rfl, ?_, rfl⟩
    have := Rat.floor_intCast_div_natCast (s.lines + (s.grid.countP rowFull : Int)) 10
    simp only [Nat.cast_ofNat] at this
    rw [this]
  · intro hn
    rw [if_neg (by omega)]
    exact ⟨rfl, rfl, rfl, rfl⟩
  · have hn20 : s.grid.countP rowFull ≤ 20 := by
      rw [← hg.1]
      exact List.countP_le_length _
    obtain ⟨h1, h2, h3, h4, h5, h6⟩ := hrange
    have hprod : -2199023255552000 ≤ (s.grid.countP rowFull : Int) * 100 * s.level ∧
        (s.grid.countP rowFull : Int) * 100 * s.level ≤ 2199023255552000 := by
      generalize s.grid.countP rowFull = n at hn20
      interval_cases n <;> omega
    by_cases hn : 0 < s.grid.countP rowFull
    · rw [if_pos hn]
      refine ⟨by omega, by omega, ?_, ?_, ?_, ?_⟩
      · show -9007199254740992 ≤ s.score + (s.grid.countP rowFull : Int) * 100 * s.level
        omega
      · show s.score + (s.grid.countP rowFull : Int) * 100 * s.level ≤ 9007199254740992
        omega
      · show -9007199254740992 ≤ s.lines + (s.grid.countP rowFull : Int)
        omega
      · show s.lines + (s.grid.countP rowFull : Int) ≤ 9007199254740992
        omega
    · rw [if_neg hn]
      refine ⟨by omega, by omega, ?_, ?_, ?_, ?_⟩
      · show -9007199254740992 ≤ s.score
        omega
      · show s.score ≤ 9007199254740992
        omega
      · show -9007199254740992 ≤ s.lines
        omega
      · show s.lines ≤ 9007199254740992
        omega

theorem C7_clearLines_score_witness :
    WF ({ initial 0 1 with grid := bottomFull } : Game).grid ∧ 41 ≤ 41 ∧
      ExactRange { initial 0 1 with grid := bottomFull } ∧
      ∃ s1, clearLines 41 { initial 0 1 with grid := bottomFull } = some s1 ∧
        s1.score = 100 ∧ s1.lines = 1 := by
  refine ⟨by decide, by decide, by decide, ?_⟩
  obtain ⟨s1, h1, h2, _⟩ :=
    C7_clearLines_score { initial 0 1 with grid := bottomFull } 41 (by decide) (by decide)
      (by decide)
  obtain ⟨hs, hl, _, _⟩ := h2 (by decide)
  refine ⟨s1, h1, ?_, ?_⟩
  · rw [hs]; decide
  · rw [hl]; decide

/-! ## Lemmas on merge -/

theorem forEachIdx_inv {α σ : Type} (f : σ → α → Nat → Option σ) :
    ∀ (l : List α) (i0 : Nat) (Inv : Nat → σ → Prop) (st : σ), Inv 0 st →
      (∀ k a st1, l[k]? = some a → Inv k st1 →
        ∃ st2, f st1 a (i0 + k) = some st2 ∧ Inv (k + 1) st2) →
      ∃ st2, forEachIdx f l i0 st = some st2 ∧ Inv l.length st2 := by
  intro l
  induction l with
  | nil => intro i0 Inv st h0 _; exact ⟨st, rfl, h0⟩
  | cons a rest ih =>
    intro i0 Inv st h0 hstep
    obtain ⟨st1, hf, h1⟩ := hstep 0 a st (by simp) h0
    simp only [Nat.add_zero] at hf
    obtain ⟨st2, hr, h2⟩ := ih (i0 + 1) (fun k t => Inv (k + 1) t) st1 h1 (by
      intro k b t hk hInv
      have := hstep (k + 1) b t (by simpa using hk) hInv
      rwa [show i0 + (k + 1) = i0 + 1 + k by omega] at this)
    exact ⟨st2, by simp [forEachIdx, hf, hr], by simpa using h2⟩

theorem cell_set (g : Grid) (Y : Nat) (newRow : List Val) (R C : Nat) (hY : Y < g.length) :
    cell (g.set Y newRow) R C
      = if R = Y then newRow.getD C Val.undef else cell g R C := by
  unfold cell
  simp only [List.getD_eq_getElem?_getD, List.getElem?_set]
  by_cases h : Y = R
  · subst h
    simp [hY]
  · have h2 : ¬ R = Y := fun e => h e.symm
    simp [h, h2]

theorem gridSet_spec {g : Grid} (hg : WF g) {Y X : Int} (v : Val)
    (hY0 : 0 ≤ Y) (hY1 : Y < 20) (hX0 : 0 ≤ X) (hX1 : X < 10) :
    ∃ g1, gridSet g Y X v = some g1 ∧ WF g1 ∧
      ∀ R C : Nat, cell g1 R C = if (R : Int) = Y ∧ (C : Int) = X then v else cell g R C := by
  obtain ⟨row, hrow, hlen⟩ := WF_row hg (i := Y.toNat) (by omega)
  have hYn : ¬ (Y < 0) := by omega
  have hXn : ¬ (X < 0) := by omega
  have hXl : X.toNat < row.length := by omega
  have hYl : Y.toNat < g.length := by rw [hg.1]; omega
  refine ⟨g.set Y.toNat (row.set X.toNat v), ?_, ?_, ?_⟩
  · simp [gridSet, hYn, hrow, jsSet, hXn, hXl]
  · refine ⟨by simpa using hg.1, ?_⟩
    intro r hr
    rcases List.mem_or_eq_of_mem_set hr with h | h
    · exact hg.2 r h
    · subst h
      simpa using hlen
  · intro R C
    rw [cell_set g Y.toNat _ R C hYl]
    by_cases hR : R = Y.toNat
    · have hRY : (R : Int) = Y := by omega
      subst hR
      simp only [if_true, hRY, true_and]
      rw [cell_eq_of_getElem? hrow]
      simp only [List.getD_eq_getElem?_getD, List.getElem?_set]
      by_cases hC : X.toNat = C
      · have hCX : (C : Int) = X := by omega
        subst hC
        simp [hXl, hCX]
      · have hCX : ¬ (C : Int) = X := by omega
        simp [hC, hCX]
    · have hRY : ¬ (R : Int) = Y := by omega
      simp [hR, hRY]

/-- The inner `forEach` of `merge()` over the cells `cs` of shape row `r`. -/
theorem mergeRow_spec (p : Piece) (r : Nat) (cs : List Val) (g : Grid) (hg : WF g)
    (hb : ∀ (c : Nat) (v : Val), cs[c]? = some v → truthy v = true →
      0 ≤ p.x + c ∧ p.x + c < 10 ∧ 0 ≤ p.y + r ∧ p.y + r < 20) :
    ∃ g1, forEachIdx (mergeCell p r) cs 0 g = some g1 ∧ WF g1 ∧
      ∀ R C : Nat,
        ((∃ (c : Nat) (v : Val), cs[c]? = some v ∧ truthy v = true ∧
            p.y + r = R ∧ p.x + c = C) → cell g1 R C = p.color) ∧
        ((¬ ∃ (c : Nat) (v : Val), cs[c]? = some v ∧ truthy v = true ∧
            p.y + r = R ∧ p.x + c = C) → cell g1 R C = cell g R C) := by
  have h := forEachIdx_inv (mergeCell p r) cs 0
    (fun k gk => WF gk ∧ ∀ R C : Nat,
      ((∃ (c : Nat) (v : Val), c < k ∧ cs[c]? = some v ∧ truthy v = true ∧
          p.y + r = R ∧ p.x + c = C) → cell gk R C = p.color) ∧
      ((¬ ∃ (c : Nat) (v : Val), c < k ∧ cs[c]? = some v ∧ truthy v = true ∧
          p.y + r = R ∧ p.x + c = C) → cell gk R C = cell g R C))
    g ⟨hg, fun R C => ⟨by rintro ⟨c, v, hc, _⟩; omega, fun _ => rfl⟩⟩ (by
      intro k a gk hk ⟨hwf, hinv⟩
      simp only [Nat.zero_add]
      cases ha : truthy a with
      | false =>
        refine ⟨gk, by simp [mergeCell, ha], hwf, fun R C => ⟨?_, ?_⟩⟩
        · rintro ⟨c, v, hc, hv, ht, hpos⟩
          have hck : c < k := by
            rcases Nat.lt_or_ge c k with h | h
            · exact h
            · have : c = k := by omega
              subst this
              rw [hk] at hv
              cases hv
              rw [ha] at ht
              cases ht
          exact (hinv R C).1 ⟨c, v, hck, hv, ht, hpos⟩
        · intro hn
          exact (hinv R C).2 (fun ⟨c, v, hc, hv, ht, hpos⟩ => hn ⟨c, v, by omega, hv, ht, hpos⟩)
      | true =>
        obtain ⟨hx0, hx1, hy0, hy1⟩ := hb k a hk ha
        obtain ⟨g1, hset, hwf1, hcell⟩ := gridSet_spec hwf p.color hy0 hy1 hx0 hx1
        refine ⟨g1, by simp [mergeCell, ha, hset], hwf1, fun R C => ⟨?_, ?_⟩⟩
        · rintro ⟨c, v, hc, hv, ht, hpy, hpx⟩
          rw [hcell R C]
          split
          · rfl
          · rename_i hne
            have hck : c < k := by
              rcases Nat.lt_or_ge c k with h | h
              · exact h
              · have : c = k := by omega
                subst this
                exact absurd ⟨hpy.symm, hpx.symm⟩ hne
            exact (hinv R C).1 ⟨c, v, hck, hv, ht, hpy, hpx⟩
        · intro hn
          rw [hcell R C]
          have hne : ¬ ((R : Int) = p.y + r ∧ (C : Int) = p.x + k) := by
            rintro ⟨e1, e2⟩
            exact hn ⟨k, a, by omega, hk, ha, e1.symm, e2.symm⟩
          rw [if_neg hne]
          exact (hinv R C).2 (fun ⟨c, v, hc, hv, ht, hpos⟩ => hn ⟨c, v, by omega, hv, ht, hpos⟩))
  obtain ⟨g1, hrun, hwf, hinv⟩ := h
  refine ⟨g1, hrun, hwf, fun R C => ⟨?_, ?_⟩⟩
  · rintro ⟨c, v, hv, ht, hpos⟩
    have hc : c < cs.length := by
      rcases Nat.lt_or_ge c cs.length with h | h
      · exact h
      · rw [List.getElem?_eq_none h] at hv
        cases hv
    exact (hinv R C).1 ⟨c, v, hc, hv, ht, hpos⟩
  · intro hn
    exact (hinv R C).2 (fun ⟨c, v, _, hv, ht, hpos⟩ => hn ⟨c, v, hv, ht, hpos⟩)

/-- What `merge()` writes: with the piece inside a grid of 20 rows of 10 cells, the grid
afterwards holds the piece's colour at every cell the piece covers and is unchanged
elsewhere. -/
theorem mergeGrid_spec (p : Piece) (g : Grid) (hg : WF g) (hb : InBounds p) :
    ∃ g1, mergeGrid p g = some g1 ∧ WF g1 ∧
      ∀ R C : Nat, (covers p R C → cell g1 R C = p.color) ∧
        (¬ covers p R C → cell g1 R C = cell g R C) := by
  have h := forEachIdx_inv (fun gk row y => forEachIdx (mergeCell p y) row 0 gk) p.shape 0
    (fun k gk => WF gk ∧ ∀ R C : Nat,
      ((∃ r c : Nat, r < k ∧ occupied p.shape r c ∧ p.y + r = R ∧ p.x + c = C) →
        cell gk R C = p.color) ∧
      ((¬ ∃ r c : Nat, r < k ∧ occupied p.shape r c ∧ p.y + r = R ∧ p.x + c = C) →
        cell gk R C = cell g R C))
    g ⟨hg, fun R C => ⟨by rintro ⟨r, c, hr, _⟩; omega, fun _ => rfl⟩⟩ (by
      intro k a gk hk ⟨hwf, hinv⟩
      simp only [Nat.zero_add]
      obtain ⟨g1, hrun, hwf1, hrow⟩ := mergeRow_spec p k a gk hwf (by
        intro c v hv ht
        exact hb k c ((occupied_iff _ _ _).2 ⟨a, v, hk, hv, ht⟩))
      refine ⟨g1, hrun, hwf1, fun R C => ⟨?_, ?_⟩⟩
      · rintro ⟨r, c, hr, hocc, hpy, hpx⟩
        by_cases hcov : ∃ (c : Nat) (v : Val), a[c]? = some v ∧ truthy v = true ∧
            p.y + k = R ∧ p.x + c = C
        · exact (hrow R C).1 hcov
        · rw [(hrow R C).2 hcov]
          have hrk : r < k := by
            rcases Nat.lt_or_ge r k with h | h
            · exact h
            · have : r = k := by omega
              subst this
              obtain ⟨row, v, hrw, hv, ht⟩ := (occupied_iff _ _ _).1 hocc
              rw [hk] at hrw
              cases hrw
              exact absurd ⟨c, v, hv, ht, hpy, hpx⟩ hcov
          exact (hinv R C).1 ⟨r, c, hrk, hocc, hpy, hpx⟩
      · intro hn
        have hcov : ¬ ∃ (c : Nat) (v : Val), a[c]? = some v ∧ truthy v = true ∧
            p.y + k = R ∧ p.x + c = C := by
          rintro ⟨c, v, hv, ht, hpy, hpx⟩
          exact hn ⟨k, c, by omega, (occupied_iff _ _ _).2 ⟨a, v, hk, hv, ht⟩, hpy, hpx⟩
        rw [(hrow R C).2 hcov]
        exact (hinv R C).2
          (fun ⟨r, c, hr, hocc, hpos⟩ => hn ⟨r, c, by omega, hocc, hpos⟩))
  obtain ⟨g1, hrun, hwf, hinv⟩ := h
  refine ⟨g1, hrun, hwf, fun R C => ⟨?_, ?_⟩⟩
  · rintro ⟨r, c, hocc, hpos⟩
    have hr : r < p.shape.length := by
      obtain ⟨row, v, hrw, _, _⟩ := (occupied_iff _ _ _).1 hocc
      rcases Nat.lt_or_ge r p.shape.length with h | h
      · exact h
      · rw [List.getElem?_eq_none h] at hrw
        cases hrw
    exact (hinv R C).1 ⟨r, c, hr, hocc, hpos⟩
  · intro hn
    exact (hinv R C).2 (fun ⟨r, c, _, hocc, hpos⟩ => hn ⟨r, c, hocc, hpos⟩)

/-! ## Lemmas on drop -/

theorem raise_lower (s : Game) :
    ({ s with currentPiece :=
        { ({ s with currentPiece := { s.currentPiece with y := s.currentPiece.y + 1 } } :
              Game).currentPiece with
          y := ({ s with currentPiece := { s.currentPiece with y := s.currentPiece.y + 1 } } :
              Game).currentPiece.y - 1 } } : Game) = s := by
  cases s with
  | mk grid score lines level gameOver isPaused currentPiece nextPiece dc di lt =>
    cases currentPiece with
    | mk shape color x y => simp

theorem clearLines_frame (s s4 : Game) (fuel : Nat) (h : clearLines fuel s = some s4) :
    s4.currentPiece = s.currentPiece ∧ s4.nextPiece = s.nextPiece ∧
      s4.gameOver = s.gameOver ∧ s4.isPaused = s.isPaused ∧
      s4.dropCounter = s.dropCounter ∧ s4.lastTime = s.lastTime := by
  unfold clearLines at h
  split at h
  · cases h
  · split at h <;> (cases h; exact ⟨rfl, rfl, rfl, rfl, rfl, rfl⟩)

theorem drop_free (s : Game) (fuel : Nat) (rnd : Fin 7)
    (h : collision { s with currentPiece := { s.currentPiece with y := s.currentPiece.y + 1 } }
      = some false) :
    drop fuel rnd s =
      some { s with
        currentPiece := { s.currentPiece with y := s.currentPiece.y + 1 }
        dropCounter := 0 } := by
  simp only [drop, h]

theorem drop_lock (s : Game) (fuel : Nat) (rnd : Fin 7) (hg : WF s.grid) (hf : 41 ≤ fuel)
    (h : collision { s with currentPiece := { s.currentPiece with y := s.currentPiece.y + 1 } }
      = some true)
    (hb : InBounds s.currentPiece) :
    ∃ g1 s4, mergeGrid s.currentPiece s.grid = some g1 ∧ WF g1 ∧
      (∀ R C : Nat, (covers s.currentPiece R C → cell g1 R C = s.currentPiece.color) ∧
        (¬ covers s.currentPiece R C → cell g1 R C = cell s.grid R C)) ∧
      clearLines fuel { s with grid := g1 } = some s4 ∧
      (s.currentPiece.y = 0 → drop fuel rnd s = some { s4 with gameOver := true }) ∧
      (s.currentPiece.y ≠ 0 →
        drop fuel rnd s =
          some { s4 with
            currentPiece := s.nextPiece
            nextPiece := newPiece rnd
            dropCounter := 0 }) := by
  obtain ⟨g1, hm, hwf1, hcells⟩ := mergeGrid_spec s.currentPiece s.grid hg hb
  obtain ⟨s4, hcl⟩ : ∃ s4, clearLines fuel { s with grid := g1 } = some s4 :=
    ⟨_, clearLines_spec { s with grid := g1 } fuel hwf1 hf⟩
  obtain ⟨hcp, hnp, _⟩ := clearLines_frame _ _ fuel hcl
  have hcp2 : s4.currentPiece = s.currentPiece := hcp
  have hnp2 : s4.nextPiece = s.nextPiece := hnp
  have hmerge : merge s = some { s with grid := g1 } := by simp only [merge, hm]
  have hstep : drop fuel rnd s =
      if s4.currentPiece.y = 0 then some { s4 with gameOver := true }
      else
        some { s4 with
          currentPiece := s4.nextPiece
          nextPiece := newPiece rnd
          dropCounter := 0 } := by
    unfold drop
    simp only [h]
    rw [raise_lower s]
    simp only [hmerge, hcl]
  refine ⟨g1, s4, hm, hwf1, hcells, hcl, ?_, ?_⟩
  · intro hy
    rw [hstep, if_pos (by rw [hcp2]; exact hy)]
  · intro hy
    rw [hstep, if_neg (by rw [hcp2]; exact hy), hnp2]

theorem occupied_lt {shape : Shape} {h w r c : Nat} (hs : Rect shape h w)
    (ho : occupied shape r c) : r < h ∧ c < w := by
  obtain ⟨row, v, hr, hc, _⟩ := (occupied_iff _ _ _).1 ho
  obtain ⟨hr1, hr2⟩ := List.getElem?_eq_some.1 hr
  obtain ⟨hc1, _⟩ := List.getElem?_eq_some.1 hc
  have hw : row.length = w := hs.2 row (by rw [← hr2]; exact List.getElem_mem _)
  exact ⟨by rw [← hs.1]; exact hr1, by rw [← hw]; exact hc1⟩

/-- C8: on a grid of 20 rows of 10 cells `drop()` behaves as the lock-step drop. The
collision test of the piece moved down one row returns. If it is false, only the piece's
`y` grows by 1 and the drop counter becomes 0. If it is true (and the piece lies inside
the grid), `y` is restored, `merge()` writes the piece's colour into every grid cell the
piece covers at that position and leaves the other cells, `clearLines()` runs on the
result without touching the pieces, the flags or the drop counter, and then: when the
piece's `y` is 0 only `gameOver` is set to true; otherwise the next piece becomes the
current piece, a fresh piece becomes the next piece and the drop counter becomes 0. -/
theorem C8_drop (s : Game) (fuel : Nat) (rnd : Fin 7) (hg : WF s.grid) (hf : 41 ≤ fuel) :
    (∃ b, collision
        { s with currentPiece := { s.currentPiece with y := s.currentPiece.y + 1 } } = some b) ∧
    (collision { s with currentPiece := { s.currentPiece with y := s.currentPiece.y + 1 } }
        = some false →
      drop fuel rnd s =
        some { s with
          currentPiece := { s.currentPiece with y := s.currentPiece.y + 1 }
          dropCounter := 0 }) ∧
    (collision { s with currentPiece := { s.currentPiece with y := s.currentPiece.y + 1 } }
        = some true →
      InBounds s.currentPiece →
      ∃ (g1 : Grid) (s4 : Game), merge s = some { s with grid := g1 } ∧
        (∀ R C : Nat, (covers s.currentPiece R C → cell g1 R C = s.currentPiece.color) ∧
          (¬ covers s.currentPiece R C → cell g1 R C = cell s.grid R C)) ∧
        clearLines fuel { s with grid := g1 } = some s4 ∧
        s4.currentPiece = s.currentPiece ∧ s4.nextPiece = s.nextPiece ∧
        s4.gameOver = s.gameOver ∧ s4.isPaused = s.isPaused ∧
        s4.dropCounter = s.dropCounter ∧
        (s.currentPiece.y = 0 → drop fuel rnd s = some { s4 with gameOver := true }) ∧
        (s.currentPiece.y ≠ 0 →
          drop fuel rnd s =
            some { s4 with
              currentPiece := s.nextPiece
              nextPiece := newPiece rnd
              dropCounter := 0 })) := by
  refine ⟨collision_total _ hg, drop_free s fuel rnd, ?_⟩
  intro hc hb
  obtain ⟨g1, s4, hm, _, hcells, hcl, h0, h1⟩ := drop_lock s fuel rnd hg hf hc hb
  obtain ⟨f1, f2, f3, f4, f5, _⟩ := clearLines_frame _ _ fuel hcl
  exact ⟨g1, s4, by simp only [merge, hm], hcells, hcl, f1, f2, f3, f4, f5, h0, h1⟩

theorem C8_drop_witness :
    WF ({ initial 1 0 with
        currentPiece := { (initial 1 0).currentPiece with y := 18 } } : Game).grid ∧
      41 ≤ 41 ∧
      ∃ s4 : Game, drop 41 2 { initial 1 0 with
          currentPiece := { (initial 1 0).currentPiece with y := 18 } }
        = some { s4 with
            currentPiece := (initial 1 0).nextPiece
            nextPiece := newPiece 2
            dropCounter := 0 } := by
  refine ⟨by decide, by decide, ?_⟩
  obtain ⟨g1, s4, _, _, _, _, _, _, _, _, _, h⟩ :=
    (C8_drop { initial 1 0 with currentPiece := { (initial 1 0).currentPiece with y := 18 } }
      41 2 (by decide) (by decide)).2.2 (by decide) (by
        intro r c ho
        have := occupied_lt (h := 2) (w := 2) (by decide) ho
        simp only [initial, newPiece, GRID_WIDTH]
        omega)
  exact ⟨s4, h (by decide)⟩

/-- C9: in a state with `gameOver = true` every call of `update` (any time value) and
every key press (any key code) returns the state unchanged, so every state reachable from
it is that same state and has `gameOver = true`. -/
theorem C9_gameOver_absorbing (s : Game) (hover : s.gameOver = true) :
    (∀ fuel rnd time, update fuel rnd time s = some s) ∧
    (∀ fuel rnd keyCode, keydown fuel rnd keyCode s = some s) ∧
    (∀ s1, Reachable s s1 → s1 = s ∧ s1.gameOver = true) := by
  have hu : ∀ (t : Game), t.gameOver = true → ∀ fuel rnd time, update fuel rnd time t = some t := by
    intro t ht fuel rnd time
    simp [update, ht]
  have hk : ∀ (t : Game), t.gameOver = true →
      ∀ fuel rnd keyCode, keydown fuel rnd keyCode t = some t := by
    intro t ht fuel rnd keyCode
    simp [keydown, ht]
  refine ⟨hu s hover, hk s hover, ?_⟩
  intro s1 hreach
  induction hreach with
  | refl => exact ⟨rfl, hover⟩
  | tail _ hstep ih =>
    obtain ⟨rfl, hgo⟩ := ih
    cases hstep with
    | tick fuel rnd time _ _ h =>
      rw [hu _ hgo] at h
      exact ⟨(Option.some.inj h).symm, by rw [← Option.some.inj h]; exact hgo⟩
    | key fuel rnd keyCode _ _ h =>
      rw [hk _ hgo] at h
      exact ⟨(Option.some.inj h).symm, by rw [← Option.some.inj h]; exact hgo⟩

theorem C9_gameOver_absorbing_witness :
    ({ initial 0 1 with gameOver := true } : Game).gameOver = true ∧
      keydown 41 3 40 { initial 0 1 with gameOver := true }
        = some { initial 0 1 with gameOver := true } :=
  ⟨rfl, (C9_gameOver_absorbing { initial 0 1 with gameOver := true } rfl).2.1 41 3 40⟩

/-- C10, the code at a failing input: pressing space (32) in the constructor's state (empty
grid, I piece at `(4, 0)`) gives the paused state, with `isPaused = true` and
`gameOver = false`; there `update` does nothing, but the left arrow key (37) still moves
the piece to `x = 3` and the down arrow key (40) still moves it to `y = 1`. -/
theorem C10_paused_key_moves_piece :
    keydown 41 0 32 (initial 0 1) = some { initial 0 1 with isPaused := true } ∧
    ({ initial 0 1 with isPaused := true } : Game).isPaused = true ∧
    ({ initial 0 1 with isPaused := true } : Game).gameOver = false ∧
    update 41 0 16 { initial 0 1 with isPaused := true }
      = some { initial 0 1 with isPaused := true } ∧
    keydown 41 0 37 { initial 0 1 with isPaused := true }
      = some { initial 0 1 with
          isPaused := true
          currentPiece := { (initial 0 1).currentPiece with x := 3 } } ∧
    keydown 41 0 40 { initial 0 1 with isPaused := true }
      = some { initial 0 1 with
          isPaused := true
          currentPiece := { (initial 0 1).currentPiece with y := 1 } } := by
  decide

/-! ## Drop interval, pause and resume -/

theorem clearLines_dropInterval (s s1 : Game) (fuel : Nat) (h : clearLines fuel s = some s1) :
    (s1.level = s.level ∧ s1.dropInterval = s.dropInterval) ∨
      s1.dropInterval = dropIntervalAt s1.level := by
  unfold clearLines at h
  split at h
  · cases h
  · split at h
    · cases h
      right
      rfl
    · cases h
      left
      exact ⟨rfl, rfl⟩

/-- C13: the drop interval that `clearLines()` assigns is `dropIntervalAt level`, and this
function of the level is non-increasing, never below 100, equal to 1000 at level 1 and
equal to 100 at every level from 10 on. -/
theorem C13_dropInterval_monotone :
    (∀ (s s1 : Game) (fuel : Nat), clearLines fuel s = some s1 →
      (s1.level = s.level ∧ s1.dropInterval = s.dropInterval) ∨
        s1.dropInterval = dropIntervalAt s1.level) ∧
    (∀ level1 level2 : Int, level1 ≤ level2 →
      dropIntervalAt level2 ≤ dropIntervalAt level1) ∧
    (∀ level : Int, 100 ≤ dropIntervalAt level) ∧
    dropIntervalAt 1 = 1000 ∧
    (∀ level : Int, 10 ≤ level → dropIntervalAt level = 100) := by
  refine ⟨clearLines_dropInterval, ?_, ?_, ?_, ?_⟩
  · intro l1 l2 h
    unfold dropIntervalAt
    omega
  · intro l
    unfold dropIntervalAt
    omega
  · decide
  · intro l h
    unfold dropIntervalAt
    omega

theorem C13_dropInterval_monotone_witness :
    (3 : Int) ≤ 12 ∧ dropIntervalAt 12 ≤ dropIntervalAt 3 ∧ dropIntervalAt 12 = 100 :=
  ⟨by decide, C13_dropInterval_monotone.2.1 3 12 (by decide),
    C13_dropInterval_monotone.2.2.2.2 12 (by decide)⟩

theorem update_paused (t : Game) (hp : t.isPaused = true) (fuel : Nat) (rnd : Fin 7)
    (time : Int) : update fuel rnd time t = some t := by
  simp [update, hp]

theorem runTicks_paused (t : Game) (hp : t.isPaused = true) (fuel : Nat) :
    ∀ ticks : List (Fin 7 × Int), runTicks fuel ticks t = some t := by
  intro ticks
  induction ticks with
  | nil => rfl
  | cons e rest ih =>
    obtain ⟨rnd, time⟩ := e
    simp only [runTicks, update_paused t hp, ih]

/-- C14: in a running state (`gameOver = false`, `isPaused = false`) the space key (32)
sets `isPaused` to true and changes nothing else; and in every state with
`isPaused = true` each call of `update`, with any time value, and every run of such calls
returns the state unchanged, drop counter and `lastTime` included. -/
theorem C14_pause_freezes_ticks (s : Game) (hover : s.gameOver = false)
    (hrun : s.isPaused = false) :
    (∀ fuel rnd, keydown fuel rnd 32 s = some { s with isPaused := true }) ∧
    (∀ fuel ticks, runTicks fuel ticks { s with isPaused := true }
      = some { s with isPaused := true }) ∧
    (∀ t : Game, t.isPaused = true →
      (∀ fuel rnd time, update fuel rnd time t = some t) ∧
      (∀ fuel ticks, runTicks fuel ticks t = some t)) := by
  refine ⟨?_, ?_, ?_⟩
  · intro fuel rnd
    simp [keydown, hover, hrun]
  · intro fuel ticks
    exact runTicks_paused _ rfl fuel ticks
  · intro t ht
    exact ⟨fun fuel rnd time => update_paused t ht fuel rnd time,
      fun fuel ticks => runTicks_paused t ht fuel ticks⟩

theorem C14_pause_freezes_ticks_witness :
    (initial 0 1).gameOver = false ∧ (initial 0 1).isPaused = false ∧
      keydown 41 0 32 (initial 0 1) = some { initial 0 1 with isPaused := true } ∧
      runTicks 41 [(0, 16), (0, 2000), (0, 5000)] { initial 0 1 with isPaused := true }
        = some { initial 0 1 with isPaused := true } :=
  ⟨rfl, rfl, (C14_pause_freezes_ticks (initial 0 1) rfl rfl).1 41 0,
    (C14_pause_freezes_ticks (initial 0 1) rfl rfl).2.1 41 _⟩

/-- C15, the code at a failing input: from the constructor's state two frames at 1000 ms
and 1016 ms drop the piece once and leave `lastTime = 1016`, `dropCounter = 0`; the space
key pauses. Pressing space again (at whatever host time, say 60000 ms) runs `update()`
with time 0: `dropCounter` becomes `0 - 1016 = -1016` and `lastTime` becomes 0. The next
frame at 60016 ms then adds `60016 - 0` to the counter, which reaches 59000 before the
comparison with `dropInterval = 1000`, so the piece drops at once (to `y = 2`), although
only 16 ms have passed since the resume. -/
theorem C15_resume_adds_paused_time :
    runTicks 41 [(0, 1000), (0, 1016)] (initial 0 1)
      = some { initial 0 1 with
          currentPiece := { (initial 0 1).currentPiece with y := 1 }
          lastTime := 1016 } ∧
    keydown 41 0 32 { initial 0 1 with
          currentPiece := { (initial 0 1).currentPiece with y := 1 }
          lastTime := 1016 }
      = some { initial 0 1 with
          currentPiece := { (initial 0 1).currentPiece with y := 1 }
          lastTime := 1016
          isPaused := true } ∧
    keydown 41 0 32 { initial 0 1 with
          currentPiece := { (initial 0 1).currentPiece with y := 1 }
          lastTime := 1016
          isPaused := true }
      = some { initial 0 1 with
          currentPiece := { (initial 0 1).currentPiece with y := 1 }
          lastTime := 0
          dropCounter := -1016 } ∧
    (-1016 : Int) + (60016 - 0) = 59000 ∧
    update 41 0 60016 { initial 0 1 with
          currentPiece := { (initial 0 1).currentPiece with y := 1 }
          lastTime := 0
          dropCounter := -1016 }
      = some { initial 0 1 with
          currentPiece := { (initial 0 1).currentPiece with y := 2 }
          lastTime := 60016
          dropCounter := 0 } := by
  decide

/-! ## Termination of the line-clear loop -/

/-- C20: for every grid of 20 rows whose rows all have at least one cell, the scan loop of
`clearLines()` terminates (41 loop tests suffice) and its counter of removed rows ends at
the number of full rows of the input grid, which is at most 20. -/
theorem C20_clearLoop_terminates (g : Grid) (fuel : Nat) (hlen : g.length = 20)
    (hwidth : ∀ row ∈ g, row ≠ []) (hf : 41 ≤ fuel) :
    (∃ g1, clearLoop fuel g ((g.length : Int) - 1) 0 = some (g1, g.countP rowFull)) ∧
      g.countP rowFull ≤ 20 := by
  have hrun := clearLoop_whole g fuel hwidth (by rw [hlen]; omega)
  rw [← List.countP_eq_length_filter] at hrun
  refine ⟨⟨_, hrun⟩, ?_⟩
  rw [← hlen]
  exact List.countP_le_length _

theorem C20_clearLoop_terminates_witness :
    bottomFull.length = 20 ∧ (∀ row ∈ bottomFull, row ≠ []) ∧ 41 ≤ 41 ∧
      (∃ g1, clearLoop 41 bottomFull ((bottomFull.length : Int) - 1) 0
        = some (g1, bottomFull.countP rowFull)) ∧
      bottomFull.countP rowFull ≤ 20 :=
  ⟨by decide, by decide, by decide,
    C20_clearLoop_terminates bottomFull 41 (by decide) (by decide) (by decide)⟩

/-! ## Repeated moves of the I piece -/

theorem collision_congr (s t : Game) (hg : s.grid = t.grid)
    (hs : s.currentPiece.shape = t.currentPiece.shape) (hx : s.currentPiece.x = t.currentPiece.x)
    (hy : s.currentPiece.y = t.currentPiece.y) : collision s = collision t := by
  have hcell : ∀ value x y, collisionCell s value x y = collisionCell t value x y := by
    intro value x y
    unfold collisionCell
    rw [hg, hx, hy]
  unfold collision
  rw [hs]
  simp only [hcell]

theorem move_reject (s : Game) (dir : Int)
    (h : collision { s with currentPiece := { s.currentPiece with x := s.currentPiece.x + dir } }
      = some true) : move dir s = some s := by
  simp only [move, h]
  congr 1
  cases s with
  | mk grid score lines level gameOver isPaused currentPiece nextPiece dc di lt =>
    cases currentPiece with
    | mk shape color x y => simp

theorem move_accept (s : Game) (dir : Int)
    (h : collision { s with currentPiece := { s.currentPiece with x := s.currentPiece.x + dir } }
      = some false) :
    move dir s
      = some { s with currentPiece := { s.currentPiece with x := s.currentPiece.x + dir } } := by
  simp only [move, h]

/-- The horizontal I piece in row 0 of the empty grid collides exactly when it sticks out
on the left or on the right. -/
theorem collision_I_row0 (s : Game) (hg : s.grid = emptyGrid)
    (hs : s.currentPiece.shape = [[.num 1, .num 1, .num 1, .num 1]])
    (hy : s.currentPiece.y = 0) (hlo : -1 ≤ s.currentPiece.x) (hhi : s.currentPiece.x ≤ 7) :
    collision s = some (decide (s.currentPiece.x < 0 ∨ 6 < s.currentPiece.x)) := by
  have hc : collision s = collision
      { initial 0 0 with
        currentPiece := { (initial 0 0).currentPiece with x := s.currentPiece.x } } :=
    collision_congr _ _ hg hs rfl hy
  rw [hc]
  generalize s.currentPiece.x = x at hlo hhi
  interval_cases x <;> decide

theorem setX_setX (s : Game) (a b : Int) : setX (setX s a) b = setX s b := rfl

theorem setX_self (s : Game) : setX s s.currentPiece.x = s := by
  cases s with
  | mk grid score lines level gameOver isPaused currentPiece nextPiece dc di lt =>
    cases currentPiece with
    | mk shape color x y => rfl

theorem move_left_I (n : Nat) :
    ∀ s : Game, s.grid = emptyGrid →
      s.currentPiece.shape = [[.num 1, .num 1, .num 1, .num 1]] →
      s.currentPiece.y = 0 → 0 ≤ s.currentPiece.x → s.currentPiece.x ≤ 6 →
      times (move (-1)) n s = some (setX s (max (s.currentPiece.x - n) 0)) := by
  induction n with
  | zero =>
    intro s _ _ _ hx0 _
    simp only [times, Nat.cast_zero, sub_zero]
    rw [max_eq_left hx0, setX_self]
  | succ n ih =>
    intro s hg hs hy hx0 hx6
    have hcol : collision (setX s (s.currentPiece.x + (-1)))
        = some (decide (s.currentPiece.x + (-1) < 0 ∨ 6 < s.currentPiece.x + (-1))) :=
      collision_I_row0 (setX s (s.currentPiece.x + (-1))) hg hs hy
        (by show -1 ≤ s.currentPiece.x + (-1); omega)
        (by show s.currentPiece.x + (-1) ≤ 7; omega)
    by_cases hz : s.currentPiece.x = 0
    · have hrej : move (-1) s = some s := by
        apply move_reject s (-1)
        show collision (setX s (s.currentPiece.x + (-1))) = some true
        rw [hcol, hz]
        decide
      simp only [times, hrej]
      rw [ih s hg hs hy hx0 hx6]
      congr 2
      rw [hz]
      omega
    · have hacc : move (-1) s = some (setX s (s.currentPiece.x + (-1))) := by
        apply move_accept s (-1)
        show collision (setX s (s.currentPiece.x + (-1))) = some false
        rw [hcol]
        congr 1
        rw [decide_eq_false_iff_not]
        omega
      simp only [times, hacc]
      rw [ih (setX s (s.currentPiece.x + (-1))) hg hs hy
        (by show 0 ≤ s.currentPiece.x + (-1); omega)
        (by show s.currentPiece.x + (-1) ≤ 6; omega), setX_setX]
      congr 2
      show max (s.currentPiece.x + (-1) - (n : Int)) 0 = max (s.currentPiece.x - ((n + 1 : Nat) : Int)) 0
      congr 1
      push_cast
      omega

theorem move_right_I (n : Nat) :
    ∀ s : Game, s.grid = emptyGrid →
      s.currentPiece.shape = [[.num 1, .num 1, .num 1, .num 1]] →
      s.currentPiece.y = 0 → 0 ≤ s.currentPiece.x → s.currentPiece.x ≤ 6 →
      times (move 1) n s = some (setX s (min (s.currentPiece.x + n) 6)) := by
  induction n with
  | zero =>
    intro s _ _ _ _ hx6
    simp only [times, Nat.cast_zero, add_zero]
    rw [min_eq_left hx6, setX_self]
  | succ n ih =>
    intro s hg hs hy hx0 hx6
    have hcol : collision (setX s (s.currentPiece.x + 1))
        = some (decide (s.currentPiece.x + 1 < 0 ∨ 6 < s.currentPiece.x + 1)) :=
      collision_I_row0 (setX s (s.currentPiece.x + 1)) hg hs hy
        (by show -1 ≤ s.currentPiece.x + 1; omega)
        (by show s.currentPiece.x + 1 ≤ 7; omega)
    by_cases hz : s.currentPiece.x = 6
    · have hrej : move 1 s = some s := by
        apply move_reject s 1
        show collision (setX s (s.currentPiece.x + 1)) = some true
        rw [hcol, hz]
        decide
      simp only [times, hrej]
      rw [ih s hg hs hy hx0 hx6]
      congr 2
      rw [hz]
      omega
    · have hacc : move 1 s = some (setX s (s.currentPiece.x + 1)) := by
        apply move_accept s 1
        show collision (setX s (s.currentPiece.x + 1)) = some false
        rw [hcol]
        congr 1
        rw [decide_eq_false_iff_not]
        omega
      simp only [times, hacc]
      rw [ih (setX s (s.currentPiece.x + 1)) hg hs hy
        (by show 0 ≤ s.currentPiece.x + 1; omega)
        (by show s.currentPiece.x + 1 ≤ 6; omega), setX_setX]
      congr 2
      show min (s.currentPiece.x + 1 + (n : Int)) 6 = min (s.currentPiece.x + ((n + 1 : Nat) : Int)) 6
      congr 1
      push_cast
      omega

/-- C16: on the empty grid with the horizontal I piece `[[1,1,1,1]]` at `(4, 0)`, `n` calls
of `move(-1)` in a row all return and leave the state as it was except for the piece's
`x`, which is `max(4 - n, 0)`; `n` calls of `move(+1)` likewise give `x = min(4 + n, 6)`.
In particular five calls of `move(-1)` end at `x = 0`. -/
theorem C16_move_clipped (s : Game) (hg : s.grid = emptyGrid)
    (hs : s.currentPiece.shape = [[.num 1, .num 1, .num 1, .num 1]])
    (hx : s.currentPiece.x = 4) (hy : s.currentPiece.y = 0) (n : Nat) :
    times (move (-1)) n s
      = some { s with currentPiece := { s.currentPiece with x := max (4 - (n : Int)) 0 } } ∧
    times (move 1) n s
      = some { s with currentPiece := { s.currentPiece with x := min (4 + (n : Int)) 6 } } := by
  have hl := move_left_I n s hg hs hy (by omega) (by omega)
  have hr := move_right_I n s hg hs hy (by omega) (by omega)
  rw [hx] at hl hr
  exact ⟨hl, hr⟩

theorem C16_move_clipped_witness :
    (initial 0 1).grid = emptyGrid ∧
      (initial 0 1).currentPiece.shape = [[.num 1, .num 1, .num 1, .num 1]] ∧
      (initial 0 1).currentPiece.x = 4 ∧ (initial 0 1).currentPiece.y = 0 ∧
      times (move (-1)) 5 (initial 0 1)
        = some { initial 0 1 with currentPiece := { (initial 0 1).currentPiece with x := 0 } } :=
  ⟨rfl, rfl, rfl, rfl, (C16_move_clipped (initial 0 1) rfl rfl rfl rfl 5).1⟩

/-! ## Case analysis of the operations and an induction rule for events -/

theorem clearLoop_mono (fuel : Nat) :
    ∀ (g : Grid) (y : Int) (c : Nat) (r : Grid × Nat) (more : Nat),
      clearLoop fuel g y c = some r → clearLoop (fuel + more) g y c = some r := by
  induction fuel with
  | zero => intro g y c r more h; simp [clearLoop] at h
  | succ fuel ih =>
    intro g y c r more h
    rw [show fuel + 1 + more = (fuel + more) + 1 by omega]
    unfold clearLoop at h ⊢
    by_cases hy : y < 0
    · simpa [hy] using h
    · simp only [hy, if_false] at h ⊢
      cases hrow : g[y.toNat]? with
      | none => simp [hrow] at h
      | some row =>
        simp only [hrow] at h ⊢
        by_cases hfull : rowFull row = true
        · simp only [hfull, if_true] at h ⊢
          exact ih _ _ _ _ more h
        · simp only [hfull] at h ⊢
          exact ih _ _ _ _ more h

theorem clearLines_mono (s s1 : Game) (fuel more : Nat) (h : clearLines fuel s = some s1) :
    clearLines (fuel + more) s = some s1 := by
  unfold clearLines at h ⊢
  cases hloop : clearLoop fuel s.grid ((s.grid.length : Int) - 1) 0 with
  | none => simp [hloop] at h
  | some r =>
    rw [clearLoop_mono fuel _ _ _ r more hloop]
    rw [hloop] at h
    exact h

/-- Whatever the fuel, a call of `clearLines()` that returns on a grid of 20 rows of 10
cells returns the grid described by `clearLines_spec`. -/
theorem clearLines_grid_of_some (s s1 : Game) (fuel : Nat) (hg : WF s.grid)
    (h : clearLines fuel s = some s1) :
    s1.grid = List.replicate (s.grid.countP rowFull) (List.replicate 10 (Val.num 0))
      ++ s.grid.filter (fun r => !rowFull r) := by
  have h1 := clearLines_mono s s1 fuel 41 h
  rw [clearLines_spec s (fuel + 41) hg (by omega)] at h1
  have h2 := Option.some.inj h1
  rw [← h2]
  split <;> rfl

/-- The effect of `clearLines()` on score, lines, level and drop interval, with `n` the
value of its counter `linesCleared`. -/
theorem clearLines_fields (s s1 : Game) (fuel : Nat) (h : clearLines fuel s = some s1) :
    ∃ n : Nat,
      (n = 0 ∧ s1.score = s.score ∧ s1.lines = s.lines ∧ s1.level = s.level ∧
        s1.dropInterval = s.dropInterval) ∨
      (0 < n ∧ s1.score = s.score + (n : Int) * 100 * s.level ∧
        s1.lines = s.lines + (n : Int) ∧ s1.level = (s.lines + (n : Int)) / 10 + 1 ∧
        s1.dropInterval = max (1000 - (s1.level - 1) * 100) 100) := by
  unfold clearLines at h
  split at h
  · cases h
  · rename_i grid n _
    refine ⟨n, ?_⟩
    split at h
    · rename_i hn
      cases h
      right
      exact ⟨hn, rfl, rfl, rfl, rfl⟩
    · rename_i hn
      cases h
      left
      exact ⟨by omega, rfl, rfl, rfl, rfl⟩

theorem move_cases (s s1 : Game) (dir : Int) (h : move dir s = some s1) :
    s1 = s ∨ (s1 = setX s (s.currentPiece.x + dir) ∧ collision s1 = some false) := by
  cases hc : collision (setX s (s.currentPiece.x + dir)) with
  | none =>
    have : move dir s = none := by
      unfold move
      simp only
      rw [show collision { s with currentPiece :=
        { s.currentPiece with x := s.currentPiece.x + dir } } = none from hc]
    rw [this] at h
    cases h
  | some b =>
    cases b with
    | true =>
      rw [move_reject s dir hc] at h
      exact Or.inl (Option.some.inj h).symm
    | false =>
      rw [move_accept s dir hc] at h
      have e := (Option.some.inj h).symm
      exact Or.inr ⟨e, by rw [e]; exact hc⟩

theorem rotate_cases (s s1 : Game) (h : rotate s = some s1) :
    s1 = s ∨
      ∃ rotated, s1 = { s with currentPiece := { s.currentPiece with shape := rotated } } ∧
        collision s1 = some false := by
  unfold rotate at h
  simp only at h
  split at h
  · cases h
  · rename_i rotated _
    split at h
    · cases h
    · cases h
      left
      rfl
    · rename_i hc
      cases h
      right
      exact ⟨rotated, rfl, hc⟩

theorem drop_cases (s s1 : Game) (fuel : Nat) (rnd : Fin 7) (h : drop fuel rnd s = some s1) :
    (collision (setY s (s.currentPiece.y + 1)) = some false ∧
      s1 = { setY s (s.currentPiece.y + 1) with dropCounter := 0 }) ∨
    (collision (setY s (s.currentPiece.y + 1)) = some true ∧
      ∃ (g1 : Grid) (s4 : Game), mergeGrid s.currentPiece s.grid = some g1 ∧
        clearLines fuel { s with grid := g1 } = some s4 ∧
        ((s.currentPiece.y = 0 ∧ s1 = { s4 with gameOver := true }) ∨
          (s.currentPiece.y ≠ 0 ∧
            s1 = { s4 with
              currentPiece := s.nextPiece
              nextPiece := newPiece rnd
              dropCounter := 0 }))) := by
  cases hc : collision (setY s (s.currentPiece.y + 1)) with
  | none =>
    have : drop fuel rnd s = none := by
      unfold drop
      simp only
      rw [show collision { s with currentPiece :=
        { s.currentPiece with y := s.currentPiece.y + 1 } } = none from hc]
    rw [this] at h
    cases h
  | some b =>
    cases b with
    | false =>
      rw [drop_free s fuel rnd hc] at h
      exact Or.inl ⟨rfl, (Option.some.inj h).symm⟩
    | true =>
      right
      refine ⟨rfl, ?_⟩
      have hstep : drop fuel rnd s =
          match merge s with
          | none => none
          | some s3 =>
            match clearLines fuel s3 with
            | none => none
            | some s4 =>
              if s4.currentPiece.y = 0 then some { s4 with gameOver := true }
              else
                some { s4 with
                  currentPiece := s4.nextPiece
                  nextPiece := newPiece rnd
                  dropCounter := 0 } := by
        unfold drop
        simp only
        rw [show collision { s with currentPiece :=
          { s.currentPiece with y := s.currentPiece.y + 1 } } = some true from hc]
        simp only
        rw [raise_lower s]
      rw [hstep] at h
      cases hm : mergeGrid s.currentPiece s.grid with
      | none => simp [merge, hm] at h
      | some g1 =>
        have hmerge : merge s = some { s with grid := g1 } := by simp only [merge, hm]
        rw [hmerge] at h
        simp only at h
        cases hcl : clearLines fuel { s with grid := g1 } with
        | none => simp [hcl] at h
        | some s4 =>
          rw [hcl] at h
          simp only at h
          obtain ⟨hcp, hnp, _⟩ := clearLines_frame _ _ fuel hcl
          have hcp2 : s4.currentPiece = s.currentPiece := hcp
          have hnp2 : s4.nextPiece = s.nextPiece := hnp
          refine ⟨g1, s4, rfl, hcl, ?_⟩
          by_cases hy : s.currentPiece.y = 0
          · rw [if_pos (by rw [hcp2]; exact hy)] at h
            exact Or.inl ⟨hy, (Option.some.inj h).symm⟩
          · rw [if_neg (by rw [hcp2]; exact hy), hnp2] at h
            exact Or.inr ⟨hy, (Option.some.inj h).symm⟩

/-- Induction rule for events: a property that does not look at `isPaused`, `dropCounter`
and `lastTime` and is kept by `move`, `rotate` and `drop` is kept by every call of
`update` and every key press. -/
theorem update_preserves (P : Game → Prop)
    (hframe : ∀ (s : Game) (p : Bool) (c t : Int), P s →
      P { s with isPaused := p, dropCounter := c, lastTime := t })
    (hdrop : ∀ s fuel rnd s1, P s → drop fuel rnd s = some s1 → P s1)
    (s s1 : Game) (fuel : Nat) (rnd : Fin 7) (time : Int)
    (h : update fuel rnd time s = some s1) (hP : P s) : P s1 := by
  unfold update at h
  split at h
  · cases h
    exact hP
  · simp only at h
    have hP1 : P { s with lastTime := time, dropCounter := s.dropCounter + (time - s.lastTime) } :=
      hframe s s.isPaused (s.dropCounter + (time - s.lastTime)) time hP
    split at h
    · exact hdrop _ fuel rnd s1 hP1 h
    · cases h
      exact hP1

theorem step_preserves (P : Game → Prop)
    (hframe : ∀ (s : Game) (p : Bool) (c t : Int), P s →
      P { s with isPaused := p, dropCounter := c, lastTime := t })
    (hmove : ∀ s dir s1, P s → move dir s = some s1 → P s1)
    (hrot : ∀ s s1, P s → rotate s = some s1 → P s1)
    (hdrop : ∀ s fuel rnd s1, P s → drop fuel rnd s = some s1 → P s1)
    (s s1 : Game) (hstep : Step s s1) (hP : P s) : P s1 := by
  cases hstep with
  | tick fuel rnd time _ _ h => exact update_preserves P hframe hdrop s s1 fuel rnd time h hP
  | key fuel rnd keyCode _ _ h =>
    unfold keydown at h
    split at h
    · cases h
      exact hP
    · split at h
      · exact hmove s (-1) s1 hP h
      · exact hmove s 1 s1 hP h
      · exact hdrop s fuel rnd s1 hP h
      · exact hrot s s1 hP h
      · simp only at h
        have hP1 : P { s with isPaused := !s.isPaused } :=
          hframe s (!s.isPaused) s.dropCounter s.lastTime hP
        split at h
        · exact update_preserves P hframe hdrop _ s1 fuel rnd 0 h hP1
        · cases h
          exact hP1
      · cases h
        exact hP

theorem reachable_preserves (P : Game → Prop)
    (hframe : ∀ (s : Game) (p : Bool) (c t : Int), P s →
      P { s with isPaused := p, dropCounter := c, lastTime := t })
    (hmove : ∀ s dir s1, P s → move dir s = some s1 → P s1)
    (hrot : ∀ s s1, P s → rotate s = some s1 → P s1)
    (hdrop : ∀ s fuel rnd s1, P s → drop fuel rnd s = some s1 → P s1)
    (s s1 : Game) (hreach : Reachable s s1) (hP : P s) : P s1 := by
  induction hreach with
  | refl => exact hP
  | tail _ hstep ih => exact step_preserves P hframe hmove hrot hdrop _ _ hstep ih

theorem runKeys_reachable (fuel : Nat) (keys : List (Fin 7 × Nat)) :
    ∀ s s1 : Game, runKeys fuel keys s = some s1 → Reachable s s1 := by
  induction keys with
  | nil =>
    intro s s1 h
    cases h
    exact Relation.ReflTransGen.refl
  | cons e rest ih =>
    intro s s1 h
    obtain ⟨rnd, keyCode⟩ := e
    unfold runKeys at h
    cases hk : keydown fuel rnd keyCode s with
    | none => simp [hk] at h
    | some s2 =>
      rw [hk] at h
      exact Relation.ReflTransGen.head (Step.key fuel rnd keyCode s s2 hk) (ih s2 s1 h)

/-! ## The safety invariant -/

theorem inBounds_of_free (s : Game) (hg : WF s.grid) (hc : collision s = some false)
    (hy : 0 ≤ s.currentPiece.y) : InBounds s.currentPiece := by
  intro r c ho
  rcases collision_spec s hg with ⟨h, _⟩ | ⟨_, hn⟩
  · rw [hc] at h
    cases h
  · have hnot : ¬ hits s.grid (s.currentPiece.x + c) (s.currentPiece.y + r) :=
      fun hh => hn ⟨r, c, ho, hh⟩
    unfold hits at hnot
    omega

theorem newPiece_rect :
    ∀ k : Fin 7, (Rect (newPiece k).shape (newPiece k).shape.length 4 ∨
      Rect (newPiece k).shape (newPiece k).shape.length 3 ∨
      Rect (newPiece k).shape (newPiece k).shape.length 2) ∧
      (newPiece k).shape.length ≤ 2 := by
  decide

theorem newPiece_inBounds (k : Fin 7) : InBounds (newPiece k) := by
  intro r c ho
  obtain ⟨hrect, hlen⟩ := newPiece_rect k
  have hx : (newPiece k).x = 4 := rfl
  have hy : (newPiece k).y = 0 := rfl
  rw [hx, hy]
  rcases hrect with h | h | h <;>
    · have := occupied_lt h ho
      omega

theorem WF_emptyGrid : WF emptyGrid := by decide

theorem safe_initial (i j : Fin 7) : Safe (initial i j) :=
  ⟨WF_emptyGrid, newPiece_inBounds i, Int.le_refl 0, j, rfl⟩

theorem safe_frame (s : Game) (p : Bool) (c t : Int) (h : Safe s) :
    Safe { s with isPaused := p, dropCounter := c, lastTime := t } := h

theorem safe_move (s : Game) (dir : Int) (s1 : Game) (h : Safe s) (hm : move dir s = some s1) :
    Safe s1 := by
  rcases move_cases s s1 dir hm with rfl | ⟨e, hc⟩
  · exact h
  · obtain ⟨hg, _, hy, hn⟩ := h
    have hg1 : WF s1.grid := by rw [e]; exact hg
    have hy1 : 0 ≤ s1.currentPiece.y := by rw [e]; exact hy
    exact ⟨hg1, inBounds_of_free s1 hg1 hc hy1, hy1, by rw [e]; exact hn⟩

theorem safe_rotate (s s1 : Game) (h : Safe s) (hr : rotate s = some s1) : Safe s1 := by
  rcases rotate_cases s s1 hr with rfl | ⟨rotated, e, hc⟩
  · exact h
  · obtain ⟨hg, _, hy, hn⟩ := h
    have hg1 : WF s1.grid := by rw [e]; exact hg
    have hy1 : 0 ≤ s1.currentPiece.y := by rw [e]; exact hy
    exact ⟨hg1, inBounds_of_free s1 hg1 hc hy1, hy1, by rw [e]; exact hn⟩

/-- In a safe state the grid that `merge()` leaves is the one of `mergeGrid_spec`. -/
theorem merge_of_safe (s : Game) (h : Safe s) (g1 : Grid)
    (hm : mergeGrid s.currentPiece s.grid = some g1) :
    WF g1 ∧ ∀ R C : Nat, (covers s.currentPiece R C → cell g1 R C = s.currentPiece.color) ∧
      (¬ covers s.currentPiece R C → cell g1 R C = cell s.grid R C) := by
  obtain ⟨g2, hm2, hwf, hcells⟩ := mergeGrid_spec s.currentPiece s.grid h.1 h.2.1
  rw [hm] at hm2
  cases hm2
  exact ⟨hwf, hcells⟩

theorem safe_drop (s : Game) (fuel : Nat) (rnd : Fin 7) (s1 : Game) (h : Safe s)
    (hd : drop fuel rnd s = some s1) : Safe s1 := by
  rcases drop_cases s s1 fuel rnd hd with ⟨hc, e⟩ | ⟨_, g1, s4, hm, hcl, hcase⟩
  · obtain ⟨hg, _, hy, hn⟩ := h
    have hy1 : 0 ≤ (setY s (s.currentPiece.y + 1)).currentPiece.y := by
      show 0 ≤ s.currentPiece.y + 1
      omega
    have hb := inBounds_of_free (setY s (s.currentPiece.y + 1)) hg hc hy1
    rw [e]
    exact ⟨hg, hb, hy1, hn⟩
  · obtain ⟨hwf1, _⟩ := merge_of_safe s h g1 hm
    have hgrid := clearLines_grid_of_some { s with grid := g1 } s4 fuel hwf1 hcl
    have hwf4 : WF s4.grid := by rw [hgrid]; exact WF_cleared hwf1
    obtain ⟨hcp, hnp, _⟩ := clearLines_frame _ _ fuel hcl
    have hcp2 : s4.currentPiece = s.currentPiece := hcp
    have hnp2 : s4.nextPiece = s.nextPiece := hnp
    obtain ⟨_, hb, hy, hn⟩ := h
    rcases hcase with ⟨_, e⟩ | ⟨_, e⟩
    · rw [e]
      exact ⟨hwf4, by rw [hcp2]; exact hb, by rw [hcp2]; exact hy, by rw [hnp2]; exact hn⟩
    · rw [e]
      obtain ⟨k, hk⟩ := hn
      refine ⟨hwf4, ?_, ?_, rnd, rfl⟩
      · show InBounds s.nextPiece
        rw [hk]
        exact newPiece_inBounds k
      · show 0 ≤ s.nextPiece.y
        rw [hk]
        exact Int.le_refl 0

theorem safe_reachable (i j : Fin 7) (s : Game) (h : Reachable (initial i j) s) : Safe s :=
  reachable_preserves Safe safe_frame (fun s dir s1 hs hm => safe_move s dir s1 hs hm)
    (fun s s1 hs hr => safe_rotate s s1 hs hr)
    (fun s fuel rnd s1 hs hd => safe_drop s fuel rnd s1 hs hd) _ _ h (safe_initial i j)

/-- C18: in every state reachable from the constructor's state (empty grid, the two
pieces drawn from the catalog, then any ticks and key presses) the grid has 20 rows of 10
cells, the piece's `y` is at least 0 and every occupied cell of the current piece maps to
a column in `[0, 10)` and a row in `[0, 20)`; so `collision()` returns, reading only
existing cells, and `merge()` returns, writing only existing cells (the grid keeps its
shape). -/
theorem C18_reachable_in_bounds (i j : Fin 7) (s : Game) (h : Reachable (initial i j) s) :
    WF s.grid ∧ 0 ≤ s.currentPiece.y ∧
    (∀ r c : Nat, occupied s.currentPiece.shape r c →
      0 ≤ s.currentPiece.x + c ∧ s.currentPiece.x + c < 10 ∧
      0 ≤ s.currentPiece.y + r ∧ s.currentPiece.y + r < 20) ∧
    (∃ b, collision s = some b) ∧
    (∃ g1, mergeGrid s.currentPiece s.grid = some g1 ∧ WF g1) := by
  have hs := safe_reachable i j s h
  obtain ⟨g1, hm, hwf, _⟩ := mergeGrid_spec s.currentPiece s.grid hs.1 hs.2.1
  exact ⟨hs.1, hs.2.2.1, hs.2.1, collision_total s hs.1, g1, hm, hwf⟩

theorem C18_reachable_in_bounds_witness :
    Reachable (initial 0 1)
        { initial 0 1 with currentPiece := { (initial 0 1).currentPiece with x := 3, y := 1 } } ∧
      WF ({ initial 0 1 with
        currentPiece := { (initial 0 1).currentPiece with x := 3, y := 1 } } : Game).grid :=
  ⟨runKeys_reachable 41 [(0, 40), (0, 37)] _ _ (by decide),
    (C18_reachable_in_bounds 0 1 _
      (runKeys_reachable 41 [(0, 40), (0, 37)] _ _ (by decide))).1⟩

/-! ## Score, lines and level -/

theorem notLess_refl (s : Game) : NotLess s s :=
  ⟨Int.le_refl _, Int.le_refl _, Int.le_refl _⟩

theorem notLess_trans {a b c : Game} (h1 : NotLess a b) (h2 : NotLess b c) : NotLess a c :=
  ⟨Int.le_trans h1.1 h2.1, Int.le_trans h1.2.1 h2.2.1, Int.le_trans h1.2.2 h2.2.2⟩

theorem levelled_clearLines (s s1 : Game) (fuel : Nat) (h : Levelled s)
    (hcl : clearLines fuel s = some s1) : Levelled s1 ∧ NotLess s s1 := by
  obtain ⟨hlev, hint, hlines, hscore⟩ := h
  obtain ⟨n, hn⟩ := clearLines_fields s s1 fuel hcl
  rcases hn with ⟨_, e1, e2, e3, e4⟩ | ⟨hpos, e1, e2, e3, e4⟩
  · refine ⟨⟨by rw [e3, e2]; exact hlev, by rw [e4, e3]; exact hint, by rw [e2]; exact hlines,
      by rw [e1]; exact hscore⟩, ?_⟩
    exact ⟨by rw [e2], by rw [e3], by rw [e1]⟩
  · have hl1 : 1 ≤ s.level := by omega
    have hgain : 0 ≤ (n : Int) * 100 * s.level :=
      Int.mul_nonneg (by omega) (by omega)
    refine ⟨⟨by rw [e3, e2], by rw [e4]; rfl, by omega, by omega⟩, ?_⟩
    exact ⟨by omega, by omega, by omega⟩

theorem levelled_frame (t s : Game) (p : Bool) (c u : Int) (h : Levelled s ∧ NotLess t s) :
    Levelled { s with isPaused := p, dropCounter := c, lastTime := u } ∧
      NotLess t { s with isPaused := p, dropCounter := c, lastTime := u } := h

theorem levelled_move (s : Game) (dir : Int) (s1 : Game) (h : Levelled s)
    (hm : move dir s = some s1) : Levelled s1 ∧ NotLess s s1 := by
  rcases move_cases s s1 dir hm with rfl | ⟨e, _⟩
  · exact ⟨h, notLess_refl _⟩
  · rw [e]
    exact ⟨h, notLess_refl s⟩

theorem levelled_rotate (s s1 : Game) (h : Levelled s) (hr : rotate s = some s1) :
    Levelled s1 ∧ NotLess s s1 := by
  rcases rotate_cases s s1 hr with rfl | ⟨rotated, e, _⟩
  · exact ⟨h, notLess_refl _⟩
  · rw [e]
    exact ⟨h, notLess_refl s⟩

theorem levelled_drop (s : Game) (fuel : Nat) (rnd : Fin 7) (s1 : Game) (h : Levelled s)
    (hd : drop fuel rnd s = some s1) : Levelled s1 ∧ NotLess s s1 := by
  rcases drop_cases s s1 fuel rnd hd with ⟨_, e⟩ | ⟨_, g1, s4, _, hcl, hcase⟩
  · rw [e]
    exact ⟨h, notLess_refl s⟩
  · have h4 : Levelled s4 ∧ NotLess s s4 := levelled_clearLines { s with grid := g1 } s4 fuel h hcl
    rcases hcase with ⟨_, e⟩ | ⟨_, e⟩ <;>
      · rw [e]
        exact h4

theorem levelled_initial (i j : Fin 7) : Levelled (initial i j) := by
  refine ⟨?_, ?_, ?_, ?_⟩
  · show (1 : Int) = 0 / 10 + 1
    decide
  · show (1000 : Int) = dropIntervalAt 1
    decide
  · exact Int.le_refl 0
  · exact Int.le_refl 0

theorem levelled_step (t s s1 : Game) (hstep : Step s s1) (h : Levelled s ∧ NotLess t s) :
    Levelled s1 ∧ NotLess t s1 :=
  step_preserves (fun u => Levelled u ∧ NotLess t u)
    (fun u p c w hu => levelled_frame t u p c w hu)
    (fun u dir u1 hu hm =>
      ⟨(levelled_move u dir u1 hu.1 hm).1, notLess_trans hu.2 (levelled_move u dir u1 hu.1 hm).2⟩)
    (fun u u1 hu hr =>
      ⟨(levelled_rotate u u1 hu.1 hr).1, notLess_trans hu.2 (levelled_rotate u u1 hu.1 hr).2⟩)
    (fun u fuel rnd u1 hu hd =>
      ⟨(levelled_drop u fuel rnd u1 hu.1 hd).1,
        notLess_trans hu.2 (levelled_drop u fuel rnd u1 hu.1 hd).2⟩)
    s s1 hstep h

theorem levelled_reachable (i j : Fin 7) (s : Game) (h : Reachable (initial i j) s) :
    Levelled s := by
  induction h with
  | refl => exact levelled_initial i j
  | tail _ hstep ih => exact (levelled_step _ _ _ hstep ⟨ih, notLess_refl _⟩).1

/-- C12: in every state reachable from the constructor's state
`level = floor(lines / 10) + 1` and `dropInterval = max(1000 - (level - 1) * 100, 100)`,
and no single operation started there (`move`, `rotate`, `drop`, `clearLines`, a tick, a
key press) decreases `lines`, `level` or `score`. -/
theorem C12_level_invariant (i j : Fin 7) (s : Game) (h : Reachable (initial i j) s) :
    s.level = ⌊(s.lines : ℚ) / 10⌋ + 1 ∧
    s.dropInterval = max (1000 - (s.level - 1) * 100) 100 ∧
    (∀ dir s1, move dir s = some s1 → NotLess s s1) ∧
    (∀ s1, rotate s = some s1 → NotLess s s1) ∧
    (∀ fuel rnd s1, drop fuel rnd s = some s1 → NotLess s s1) ∧
    (∀ fuel s1, clearLines fuel s = some s1 → NotLess s s1) ∧
    (∀ fuel rnd time s1, update fuel rnd time s = some s1 → NotLess s s1) ∧
    (∀ fuel rnd keyCode s1, keydown fuel rnd keyCode s = some s1 → NotLess s s1) := by
  have hl := levelled_reachable i j s h
  refine ⟨?_, hl.2.1, ?_, ?_, ?_, ?_, ?_, ?_⟩
  · have := Rat.floor_intCast_div_natCast s.lines 10
    simp only [Nat.cast_ofNat] at this
    rw [this]
    exact hl.1
  · intro dir s1 hm
    exact (levelled_move s dir s1 hl hm).2
  · intro s1 hr
    exact (levelled_rotate s s1 hl hr).2
  · intro fuel rnd s1 hd
    exact (levelled_drop s fuel rnd s1 hl hd).2
  · intro fuel s1 hcl
    exact (levelled_clearLines s s1 fuel hl hcl).2
  · intro fuel rnd time s1 hu
    exact (levelled_step s s s1 (Step.tick fuel rnd time s s1 hu) ⟨hl, notLess_refl s⟩).2
  · intro fuel rnd keyCode s1 hk
    exact (levelled_step s s s1 (Step.key fuel rnd keyCode s s1 hk) ⟨hl, notLess_refl s⟩).2

theorem C12_level_invariant_witness :
    Reachable (initial 0 1)
        { initial 0 1 with currentPiece := { (initial 0 1).currentPiece with x := 3, y := 1 } } ∧
      ({ initial 0 1 with
        currentPiece := { (initial 0 1).currentPiece with x := 3, y := 1 } } : Game).dropInterval
        = max (1000 - (({ initial 0 1 with
            currentPiece := { (initial 0 1).currentPiece with x := 3, y := 1 } } : Game).level
              - 1) * 100) 100 :=
  ⟨runKeys_reachable 41 [(0, 40), (0, 37)] _ _ (by decide),
    (C12_level_invariant 0 1 _
      (runKeys_reachable 41 [(0, 40), (0, 37)] _ _ (by decide))).2.1⟩

/-! ## Row 0 and the spawned piece -/

theorem cell_zero_top (rest : Grid) :
    ∀ C : Nat, C < 10 → cell (List.replicate 10 (Val.num 0) :: rest) 0 C = Val.num 0 := by
  have h : ∀ C : Nat, C < 10 →
      (List.replicate 10 (Val.num 0)).getD C Val.undef = Val.num 0 := by decide
  intro C hC
  exact h C hC

theorem top_after_clear (g : Grid) (n : Nat) (hg : WF g)
    (h0 : ∀ C : Nat, C < 10 → cell g 0 C = Val.num 0) :
    ∀ C : Nat, C < 10 →
      cell (List.replicate n (List.replicate 10 (Val.num 0)) ++ g.filter (fun r => !rowFull r))
        0 C = Val.num 0 := by
  intro C hC
  cases n with
  | succ k =>
    rw [List.replicate_succ, List.cons_append]
    exact cell_zero_top _ C hC
  | zero =>
    cases g with
    | nil => simp [WF] at hg
    | cons r0 rest =>
      have hlen : r0.length = 10 := hg.2 r0 (by simp)
      cases r0 with
      | nil => simp at hlen
      | cons a tail =>
        have ha : a = Val.num 0 := by
          have := h0 0 (by omega)
          simpa [cell] using this
        have hnf : rowFull (a :: tail) = false := by
          subst ha
          simp [rowFull, truthy]
        have := h0 C hC
        simpa [cell, List.filter_cons, hnf] using this

theorem topClear_drop (s : Game) (fuel : Nat) (rnd : Fin 7) (s1 : Game)
    (h : Safe s ∧ TopClear s) (hd : drop fuel rnd s = some s1) : TopClear s1 := by
  obtain ⟨hsafe, htop⟩ := h
  rcases drop_cases s s1 fuel rnd hd with ⟨_, e⟩ | ⟨_, g1, s4, hm, hcl, hcase⟩
  · rw [e]
    exact htop
  · obtain ⟨hwf1, hcells⟩ := merge_of_safe s hsafe g1 hm
    have hgrid := clearLines_grid_of_some { s with grid := g1 } s4 fuel hwf1 hcl
    obtain ⟨_, _, hgo, _⟩ := clearLines_frame _ _ fuel hcl
    have hgo2 : s4.gameOver = s.gameOver := hgo
    rcases hcase with ⟨_, e⟩ | ⟨hy, e⟩
    · rw [e]
      intro hover
      cases hover
    · rw [e]
      intro hover
      have hs : s.gameOver = false := by rw [← hgo2]; exact hover
      have h1 : ∀ C : Nat, C < 10 → cell g1 0 C = Val.num 0 := by
        intro C hC
        have hnc : ¬ covers s.currentPiece 0 C := by
          rintro ⟨r, c, _, hr, _⟩
          have := hsafe.2.2.1
          omega
        rw [(hcells 0 C).2 hnc]
        exact htop hs C hC
      show ∀ C : Nat, C < 10 → cell s4.grid 0 C = Val.num 0
      rw [hgrid]
      exact top_after_clear g1 _ hwf1 h1

theorem topClear_reachable (i j : Fin 7) (s : Game) (h : Reachable (initial i j) s) :
    Safe s ∧ TopClear s :=
  reachable_preserves (fun u => Safe u ∧ TopClear u)
    (fun u p c t hu => hu)
    (fun u dir u1 hu hm => ⟨safe_move u dir u1 hu.1 hm, by
      rcases move_cases u u1 dir hm with rfl | ⟨e, _⟩
      · exact hu.2
      · rw [e]; exact hu.2⟩)
    (fun u u1 hu hr => ⟨safe_rotate u u1 hu.1 hr, by
      rcases rotate_cases u u1 hr with rfl | ⟨rotated, e, _⟩
      · exact hu.2
      · rw [e]; exact hu.2⟩)
    (fun u fuel rnd u1 hu hd => ⟨safe_drop u fuel rnd u1 hu.1 hd, topClear_drop u fuel rnd u1 hu hd⟩)
    _ _ h ⟨safe_initial i j, fun _ C hC =>
      cell_zero_top (List.replicate 19 (List.replicate 10 (Val.num 0))) C hC⟩

theorem jamKeys_run : runKeys 41 jamKeys (initial 1 1) = some jammed := by decide

/-- C19: in every state reachable from the constructor's state with `gameOver = false`,
every cell of row 0 of the grid is `0`. -/
theorem C19_row0_empty (i j : Fin 7) (s : Game) (h : Reachable (initial i j) s)
    (hover : s.gameOver = false) : ∀ C : Nat, C < 10 → cell s.grid 0 C = Val.num 0 :=
  (topClear_reachable i j s h).2 hover

theorem C19_row0_empty_witness :
    Reachable (initial 1 1) jammed ∧ jammed.gameOver = false ∧
      ∀ C : Nat, C < 10 → cell jammed.grid 0 C = Val.num 0 :=
  ⟨runKeys_reachable 41 jamKeys _ _ jamKeys_run, rfl,
    C19_row0_empty 1 1 jammed (runKeys_reachable 41 jamKeys _ _ jamKeys_run) rfl⟩

theorem freeOrFresh_preserved (s0 s : Game) (h : Reachable s0 s)
    (h0 : Safe s0 ∧ FreeOrFresh s0) : Safe s ∧ FreeOrFresh s :=
  reachable_preserves (fun u => Safe u ∧ FreeOrFresh u)
    (fun u p c t hu => ⟨hu.1, fun hover => by
      rcases hu.2 hover with hc | hk
      · left
        rw [← hc]
        exact collision_congr _ _ rfl rfl rfl rfl
      · exact Or.inr hk⟩)
    (fun u dir u1 hu hm => ⟨safe_move u dir u1 hu.1 hm, by
      rcases move_cases u u1 dir hm with rfl | ⟨_, hc⟩
      · exact hu.2
      · exact fun _ => Or.inl hc⟩)
    (fun u u1 hu hr => ⟨safe_rotate u u1 hu.1 hr, by
      rcases rotate_cases u u1 hr with rfl | ⟨rotated, _, hc⟩
      · exact hu.2
      · exact fun _ => Or.inl hc⟩)
    (fun u fuel rnd u1 hu hd => ⟨safe_drop u fuel rnd u1 hu.1 hd, by
      rcases drop_cases u u1 fuel rnd hd with ⟨hc, e⟩ | ⟨_, g1, s4, _, hcl, hcase⟩
      · intro _
        left
        rw [e, ← hc]
        exact collision_congr _ _ rfl rfl rfl rfl
      · rcases hcase with ⟨_, e⟩ | ⟨_, e⟩
        · rw [e]
          intro hover
          cases hover
        · rw [e]
          intro _
          right
          exact hu.1.2.2.2⟩)
    _ _ h h0

theorem freeOrFresh_reachable (i j : Fin 7) (s : Game) (h : Reachable (initial i j) s) :
    Safe s ∧ FreeOrFresh s :=
  freeOrFresh_preserved _ s h ⟨safe_initial i j, fun _ => Or.inr ⟨i, rfl⟩⟩

/-- C11, as stated, fails: the state `jammed` is reached from the constructor's state by
key presses, has `gameOver = false` and `isPaused = false`, and its current piece, the O
piece just promoted to the spawn position `(4, 0)`, collides: its cell `(1, 0)` lies on
the non-empty grid cell of row 1, column 4. -/
theorem C11_spawn_overlap_counterexample :
    runKeys 41 jamKeys (initial 1 1) = some jammed ∧ Reachable (initial 1 1) jammed ∧
      jammed.gameOver = false ∧ jammed.isPaused = false ∧
      jammed.currentPiece = newPiece 1 ∧ collision jammed = some true ∧
      occupied jammed.currentPiece.shape 1 0 ∧ truthy (cell jammed.grid 1 4) = true :=
  ⟨jamKeys_run, runKeys_reachable 41 jamKeys _ _ jamKeys_run, rfl, rfl, rfl, by decide,
    by decide, by decide⟩

/-- C11, amended: in every state reachable from the constructor's state with
`gameOver = false` (paused or not), `collision()` returns, and it returns false unless the
current piece is exactly as `newPiece` made it, at the spawn position `(4, 0)` in its
catalog orientation. -/
theorem C11_no_collision_unless_fresh (i j : Fin 7) (s : Game)
    (h : Reachable (initial i j) s) (hover : s.gameOver = false) :
    (∃ b, collision s = some b) ∧
      (collision s = some false ∨
        ∃ k, s.currentPiece = newPiece k ∧ s.currentPiece.x = 4 ∧ s.currentPiece.y = 0) := by
  obtain ⟨hsafe, hfree⟩ := freeOrFresh_reachable i j s h
  refine ⟨collision_total s hsafe.1, ?_⟩
  rcases hfree hover with hc | ⟨k, hk⟩
  · exact Or.inl hc
  · exact Or.inr ⟨k, hk, by rw [hk]; rfl, by rw [hk]; rfl⟩

theorem C11_no_collision_unless_fresh_witness :
    Reachable (initial 0 1)
        { initial 0 1 with currentPiece := { (initial 0 1).currentPiece with x := 3, y := 1 } } ∧
      ({ initial 0 1 with
        currentPiece := { (initial 0 1).currentPiece with x := 3, y := 1 } } : Game).gameOver
        = false ∧
      ∃ b, collision { initial 0 1 with
        currentPiece := { (initial 0 1).currentPiece with x := 3, y := 1 } } = some b :=
  ⟨runKeys_reachable 41 [(0, 40), (0, 37)] _ _ (by decide), rfl,
    (C11_no_collision_unless_fresh 0 1 _
      (runKeys_reachable 41 [(0, 40), (0, 37)] _ _ (by decide)) rfl).1⟩

/-! ## The O piece over a gap in row 19 -/

theorem occupied_O (r c : Nat) (hr : r < 2) (hc : c < 2) :
    occupied (newPiece 1).shape r c := by
  have h : ∀ r : Nat, r < 2 → ∀ c : Nat, c < 2 → occupied (newPiece 1).shape r c := by decide
  exact h r hr c hc

theorem gapGrid_neighbours :
    truthy (cell gapGrid 19 4) = true ∧ truthy (cell gapGrid 19 6) = true := by decide

/-- A piece with the O shape that does not collide on `gapGrid` has no cell on row 19,
column 5: the cell beside it would lie on column 4 or 6 of row 19. -/
theorem O_misses_gap (s : Game) (hg : s.grid = gapGrid)
    (hs : s.currentPiece.shape = (newPiece 1).shape) (hc : collision s = some false) :
    ¬ covers s.currentPiece 19 5 := by
  rintro ⟨r, c, ho, hr, hx⟩
  rw [hs] at ho
  obtain ⟨hr2, hc2⟩ := occupied_lt (h := 2) (w := 2) (by decide) ho
  have hwf : WF s.grid := by rw [hg]; decide
  rcases collision_spec s hwf with ⟨h, _⟩ | ⟨_, hn⟩
  · rw [hc] at h
    cases h
  · apply hn
    refine ⟨r, 1 - c, by rw [hs]; exact occupied_O r (1 - c) hr2 (by omega), ?_⟩
    unfold hits
    right; right; right
    have hY : (s.currentPiece.y + (r : Int)).toNat = 19 := by omega
    rw [hg, hY]
    have hcases : c = 0 ∨ c = 1 := by omega
    rcases hcases with rfl | rfl
    · have hX : (s.currentPiece.x + ((1 - 0 : Nat) : Int)).toNat = 6 := by omega
      rw [hX]
      exact ⟨by omega, by omega, by omega, by omega, gapGrid_neighbours.2⟩
    · have hX : (s.currentPiece.x + ((1 - 1 : Nat) : Int)).toNat = 4 := by omega
      rw [hX]
      exact ⟨by omega, by omega, by omega, by omega, gapGrid_neighbours.1⟩

theorem fresh_misses_row19 (k : Fin 7) (C : Nat) : ¬ covers (newPiece k) 19 C := by
  rintro ⟨r, c, ho, hr, _⟩
  obtain ⟨hrect, hlen⟩ := newPiece_rect k
  have hy : (newPiece k).y = 0 := rfl
  rw [hy] at hr
  rcases hrect with h | h | h <;>
    · have := occupied_lt h ho
      omega

/-- C17, as stated, fails: start from the grid with row 19 filled except column 5, an O
piece at `(4, 0)` and any next piece. No state reachable by ticks and key presses (so by
any sequence of move and drop commands) in which the game is not over, the grid is still
that grid and the current piece has the O shape has a cell of the piece on row 19,
column 5; so the O piece cannot lock there. -/
theorem C17_O_cannot_fill_gap_counterexample :
    ¬ ∃ (j : Fin 7) (s : Game), Reachable { initial 1 j with grid := gapGrid } s ∧
        s.gameOver = false ∧ s.grid = gapGrid ∧
        s.currentPiece.shape = [[.num 1, .num 1], [.num 1, .num 1]] ∧
        covers s.currentPiece 19 5 := by
  rintro ⟨j, s, hreach, hover, hg, hs, hcov⟩
  have hwf : WF gapGrid := by decide
  have hinv : Safe s ∧ FreeOrFresh s :=
    freeOrFresh_preserved _ s hreach
      ⟨⟨hwf, newPiece_inBounds 1, Int.le_refl 0, j, rfl⟩, fun _ => Or.inr ⟨1, rfl⟩⟩
  rcases hinv.2 hover with hc | ⟨k, hk⟩
  · exact O_misses_gap s hg hs hc hcov
  · rw [hk] at hcov
    exact fresh_misses_row19 k 5 hcov

theorem drop_free_times (fuel : Nat) (rnd : Fin 7) (n : Nat) :
    ∀ s : Game,
      (∀ k : Nat, k < n + 1 →
        collision (setY s (s.currentPiece.y + ((k : Int) + 1))) = some false) →
      times (drop fuel rnd) (n + 1) s = some (fallen s (s.currentPiece.y + ((n : Int) + 1))) := by
  induction n with
  | zero =>
    intro s h
    have h0 := h 0 (by omega)
    have hd : drop fuel rnd s = some (fallen s (s.currentPiece.y + 1)) :=
      drop_free s fuel rnd (by simpa using h0)
    simp only [times, hd]
    simp
  | succ n ih =>
    intro s h
    have h0 := h 0 (by omega)
    have hd : drop fuel rnd s = some (fallen s (s.currentPiece.y + 1)) :=
      drop_free s fuel rnd (by simpa using h0)
    rw [times, hd]
    simp only
    rw [ih (fallen s (s.currentPiece.y + 1)) (by
      intro k hk
      have := h (k + 1) (by omega)
      rw [← this]
      refine collision_congr _ _ ?_ ?_ ?_ ?_
      · rfl
      · rfl
      · rfl
      · show s.currentPiece.y + 1 + ((k : Int) + 1) = s.currentPiece.y + (((k + 1 : Nat) : Int) + 1)
        push_cast
        omega)]
    have e : (fallen s (s.currentPiece.y + 1)).currentPiece.y + ((n : Int) + 1)
        = s.currentPiece.y + (((n + 1 : Nat) : Int) + 1) := by
      show s.currentPiece.y + 1 + ((n : Int) + 1) = s.currentPiece.y + (((n + 1 : Nat) : Int) + 1)
      push_cast
      omega
    rw [e]
    rfl

theorem gap2_free (s : Game) (hg : s.grid = gap2Grid) (hp : s.currentPiece = newPiece 1) :
    ∀ k : Nat, k < 17 + 1 →
      collision (setY s (s.currentPiece.y + ((k : Int) + 1))) = some false := by
  have hconc : ∀ k : Nat, k < 18 →
      collision (setY { initial 1 1 with grid := gap2Grid } (0 + ((k : Int) + 1)))
        = some false := by decide
  intro k hk
  rw [← hconc k hk]
  refine collision_congr _ _ ?_ ?_ ?_ ?_
  · exact hg
  · show s.currentPiece.shape = (newPiece 1).shape
    rw [hp]
  · show s.currentPiece.x = (newPiece 1).x
    rw [hp]
  · show s.currentPiece.y + ((k : Int) + 1) = 0 + ((k : Int) + 1)
    rw [hp]
    rfl

theorem gap2_facts :
    WF gap2Grid ∧ WF gap2Merged ∧
    mergeGrid { newPiece 1 with y := 18 } gap2Grid = some gap2Merged ∧
    gap2Merged.countP rowFull = 1 ∧
    List.replicate 1 (List.replicate 10 (Val.num 0)) ++ gap2Merged.filter (fun r => !rowFull r)
      = List.replicate 10 (Val.num 0) :: gap2Merged.dropLast ∧
    collision (setY { initial 1 1 with grid := gap2Grid } 19) = some true ∧
    covers { newPiece 1 with y := 18 } 19 4 ∧ covers { newPiece 1 with y := 18 } 19 5 := by
  refine ⟨by decide, by decide, by decide, by decide, by decide, by decide, ?_, ?_⟩
  · exact ⟨1, 0, by decide, by decide, by decide⟩
  · exact ⟨1, 1, by decide, by decide, by decide⟩

/-- C17, amended: on the grid whose only non-empty cells are the eight cells of row 19 at
columns other than 4 and 5, with score, lines and level in the range where the code's
number arithmetic is exact, eighteen `drop()` calls take the O piece spawned at `(4, 0)`
to `y = 18`, where it covers `(4, 19)` and `(5, 19)`; the next `drop()` locks it there:
`merge()` fills row 19, `clearLines()` removes that row, so that afterwards the grid is a
row of zeros on top of the former rows 0 to 18 (each shifted down by one), `lines` has
grown by 1, `score` by `100 * level` (staying within `2^53`), and the next piece has
become the current piece. -/
theorem C17_O_fills_double_gap (s : Game) (fuel : Nat) (rnd : Fin 7)
    (hg : s.grid = gap2Grid) (hp : s.currentPiece = newPiece 1) (hf : 41 ≤ fuel)
    (hrange : ExactRange s) :
    times (drop fuel rnd) 18 s
      = some { s with currentPiece := { s.currentPiece with y := 18 }, dropCounter := 0 } ∧
    covers { s.currentPiece with y := 18 } 19 4 ∧
    covers { s.currentPiece with y := 18 } 19 5 ∧
    merge { s with currentPiece := { s.currentPiece with y := 18 }, dropCounter := 0 }
      = some { s with
          grid := gap2Merged
          currentPiece := { s.currentPiece with y := 18 }
          dropCounter := 0 } ∧
    ∃ s1 : Game,
      drop fuel rnd { s with currentPiece := { s.currentPiece with y := 18 }, dropCounter := 0 }
        = some s1 ∧
      s1.grid = List.replicate 10 (Val.num 0) :: gap2Merged.dropLast ∧
      s1.lines = s.lines + 1 ∧ s1.score = s.score + 100 * s.level ∧
      s1.currentPiece = s.nextPiece ∧ s1.gameOver = s.gameOver ∧
      -9007199254740992 ≤ s1.score ∧ s1.score ≤ 9007199254740992 := by
  obtain ⟨hwf, hwfM, hmc, hcount, hshift, hlockc, hcov4, hcov5⟩ := gap2_facts
  have h18 := drop_free_times fuel rnd 17 s (gap2_free s hg hp)
  have hy : s.currentPiece.y + (((17 : Nat) : Int) + 1) = 18 := by
    rw [hp]
    rfl
  rw [hy] at h18
  have hcur : (fallen s 18).currentPiece = { newPiece 1 with y := 18 } := by
    show ({ s.currentPiece with y := 18 } : Piece) = { newPiece 1 with y := 18 }
    rw [hp]
  have hgrid : (fallen s 18).grid = gap2Grid := hg
  have hlock : collision
      { fallen s 18 with currentPiece :=
        { (fallen s 18).currentPiece with y := (fallen s 18).currentPiece.y + 1 } }
      = some true := by
    rw [← hlockc]
    refine collision_congr _ _ ?_ ?_ ?_ ?_
    · exact hg
    · show s.currentPiece.shape = (newPiece 1).shape
      rw [hp]
    · show s.currentPiece.x = (newPiece 1).x
      rw [hp]
    · rfl
  have hb : InBounds (fallen s 18).currentPiece := by
    rw [hcur]
    intro r c ho
    have := occupied_lt (h := 2) (w := 2) (by decide) ho
    show (0 : Int) ≤ 4 + c ∧ (4 : Int) + c < 10 ∧ (0 : Int) ≤ 18 + r ∧ (18 : Int) + r < 20
    omega
  obtain ⟨g1, s4, hm, _, _, hcl, _, hdrop⟩ :=
    drop_lock (fallen s 18) fuel rnd (by rw [hgrid]; exact hwf) hf hlock hb
  rw [hcur, hgrid, hmc] at hm
  obtain rfl : gap2Merged = g1 := Option.some.inj hm
  have hmerge : merge (fallen s 18) = some { fallen s 18 with grid := gap2Merged } := by
    have : mergeGrid (fallen s 18).currentPiece (fallen s 18).grid = some gap2Merged := by
      rw [hcur, hgrid, hmc]
    simp only [merge, this]
  have hspec := clearLines_spec { fallen s 18 with grid := gap2Merged } fuel hwfM hf
  have hc1 : ({ fallen s 18 with grid := gap2Merged } : Game).grid.countP rowFull = 1 := hcount
  rw [hcl, if_pos (by rw [hc1]; decide)] at hspec
  have e4 := Option.some.inj hspec
  have hne : (fallen s 18).currentPiece.y ≠ 0 := by
    rw [hcur]
    decide
  have hd := hdrop hne
  have hscore : s4.score = s.score + 100 * s.level := by
    rw [e4]
    show s.score + ((gap2Merged.countP rowFull : Nat) : Int) * 100 * s.level
      = s.score + 100 * s.level
    rw [hcount]
    simp
  obtain ⟨r1, r2, _, _, r5, r6⟩ := hrange
  refine ⟨h18, ?_, ?_, hmerge, _, hd, ?_, ?_, hscore, rfl, ?_, ?_, ?_⟩
  · rw [hp]; exact hcov4
  · rw [hp]; exact hcov5
  · show s4.grid = _
    rw [e4]
    show List.replicate (gap2Merged.countP rowFull) (List.replicate 10 (Val.num 0))
      ++ gap2Merged.filter (fun r => !rowFull r) = _
    rw [hcount]
    exact hshift
  · show s4.lines = _
    rw [e4]
    show s.lines + ((gap2Merged.countP rowFull : Nat) : Int) = s.lines + 1
    rw [hcount]
    rfl
  · show s4.gameOver = _
    rw [e4]
    rfl
  · show -9007199254740992 ≤ s4.score
    rw [hscore]
    omega
  · show s4.score ≤ 9007199254740992
    rw [hscore]
    omega

theorem C17_O_fills_double_gap_witness :
    ({ initial 1 0 with grid := gap2Grid } : Game).grid = gap2Grid ∧
      ({ initial 1 0 with grid := gap2Grid } : Game).currentPiece = newPiece 1 ∧ 41 ≤ 41 ∧
      ExactRange { initial 1 0 with grid := gap2Grid } ∧
      times (drop 41 3) 18 { initial 1 0 with grid := gap2Grid }
        = some { initial 1 0 with
            grid := gap2Grid
            currentPiece := { (initial 1 0).currentPiece with y := 18 }
            dropCounter := 0 } :=
  ⟨rfl, rfl, by decide, by decide,
    (C17_O_fills_double_gap { initial 1 0 with grid := gap2Grid } 41 3 rfl rfl (by decide)
      (by decide)).1⟩

end Tetris
